import Mathlib

/-!
Verification of the pm-cli mail orchestration core (Go) against its
natural-language specification.

The definitions below are a shallow embedding of the Go source:

* `internal/imap/client.go` — batch delete/move/flag operations, search
  criteria construction, and the MIME body-structure walker
  (`extractAttachments`, `findAttachmentPart`, `countAttachments`);
* `internal/cli/mail.go` — `parseMessageBody`, `htmlToText`, `parseSize`;
* `internal/smtp/client.go` — `writeMessage`, `Send`, `encodeSubject`.

Protocol sessions are modelled by the list of protocol calls an operation
issues; standard-library behaviour the Go code relies on (`fmt.Sscanf`,
`regexp` replacement, `mime/quotedprintable`, `strings` helpers) is modelled
explicitly next to its use, with the modelled behaviour stated in the doc
comment.  Wire-level failures of the collaborator session are out of scope:
the session model always succeeds, because every claim below is about the
call sequences and byte streams the core hands to the session, not about
how the session transports them.
-/

set_option maxRecDepth 100000

namespace PmCli

/-! ### Character and scan helpers -/

/-- Space characters skipped by the `fmt` scanner before a `%d` verb
(`fmt.Sscanf`): ASCII whitespace. -/
def isScanSpace (c : Char) : Bool :=
  c = ' ' || c = '\t' || c = '\n' || c = '\r' || c = '\x0b' || c = '\x0c'

/-- Numeric value of a list of decimal digit characters. -/
def digitsVal (ds : List Char) : Nat :=
  ds.foldl (fun a c => 10 * a + (c.toNat - 48)) 0

/-- Models `fmt.Sscanf(s, "%d", &v)` for `v` of Go type `uint32`
(used for message ids in `client.go`): leading whitespace is skipped, a
nonempty run of decimal digits is read and must fit in 32 bits, and any
trailing input is ignored (`Sscanf` does not require full consumption,
so `"2x"` scans as `2`).  `none` models a scan error. -/
def goScanUint32 (s : String) : Option Nat :=
  let t := s.data.dropWhile isScanSpace
  let ds := t.takeWhile Char.isDigit
  if ds.isEmpty then none
  else
    let v := digitsVal ds
    if v < 4294967296 then some v else none

/-! ### Protocol session model

The IMAP session collaborator is modelled by the ordered list of protocol
calls an operation issues.  A sequence set is modelled as the ordered list
of sequence numbers added to it (`imap.SeqSet.AddNum`). -/

inductive StoreOp where
  | add
  | del
deriving DecidableEq, Repr

inductive MailFlag where
  | deleted
  | seen
  | flagged
deriving DecidableEq, Repr

inductive ProtocolCall where
  | select (mailbox : String)
  | store (seqSet : List Nat) (op : StoreOp) (flag : MailFlag)
  | copy (seqSet : List Nat) (dest : String)
  | expunge
deriving DecidableEq, Repr

inductive ClientError where
  | invalidMessageId (id : String)
deriving DecidableEq, Repr

/-- True for the store/copy message commands (the commands the batch claims
count, as opposed to mailbox selection and expunge). -/
def ProtocolCall.isStoreOrCopy : ProtocolCall → Bool
  | .store _ _ _ => true
  | .copy _ _ => true
  | _ => false

/-- Sequence set carried by a store/copy call. -/
def ProtocolCall.seqSetOf : ProtocolCall → List Nat
  | .store s _ _ => s
  | .copy s _ => s
  | _ => []

/-! ### Batch operations (`client.go`) -/

/-- Loop body of `DeleteMessages` (client.go:317-333): for each id in order,
scan it as a `uint32`; on failure stop with `invalid message ID`; on success
immediately issue a single-message store adding `\Deleted`.  Returns the
store calls issued and the offending id, if any. -/
def deleteLoop : List String → List ProtocolCall × Option String
  | [] => ([], none)
  | id :: rest =>
    match goScanUint32 id with
    | none => ([], some id)
    | some n =>
      let r := deleteLoop rest
      (ProtocolCall.store [n] StoreOp.add MailFlag.deleted :: r.1, r.2)

/-- Models `Client.DeleteMessages` (client.go:311-343): select the mailbox,
then loop over ids (see `deleteLoop`), then expunge if `permanent`.  Result
is the list of protocol calls issued and the error, if any. -/
def DeleteMessages (mailbox : String) (ids : List String) (permanent : Bool) :
    List ProtocolCall × Option ClientError :=
  let r := deleteLoop ids
  match r.2 with
  | some badId =>
      (ProtocolCall.select mailbox :: r.1, some (ClientError.invalidMessageId badId))
  | none =>
      (ProtocolCall.select mailbox :: r.1
        ++ (if permanent then [ProtocolCall.expunge] else []), none)

/-- Sequence-set construction shared by `MoveMessages` (client.go:356-363)
and `SetFlagsMultiple` (client.go:398-405): scan every id as a `uint32`,
failing with the first id that does not scan, before any store/copy call. -/
def buildSeqSet : List String → Except String (List Nat)
  | [] => Except.ok []
  | id :: rest =>
    match goScanUint32 id with
    | none => Except.error id
    | some n =>
      match buildSeqSet rest with
      | Except.error e => Except.error e
      | Except.ok ns => Except.ok (n :: ns)

/-- Models `Client.MoveMessages` (client.go:349-385): select, build one
sequence set from all ids, then one copy to the destination, one store
adding `\Deleted`, and an expunge. -/
def MoveMessages (mailbox : String) (ids : List String) (destMailbox : String) :
    List ProtocolCall × Option ClientError :=
  match buildSeqSet ids with
  | Except.error badId =>
      ([ProtocolCall.select mailbox], some (ClientError.invalidMessageId badId))
  | Except.ok nums =>
      ([ProtocolCall.select mailbox,
        ProtocolCall.copy nums destMailbox,
        ProtocolCall.store nums StoreOp.add MailFlag.deleted,
        ProtocolCall.expunge], none)

/-- Models `Client.SetFlagsMultiple` (client.go:391-448): select, build one
sequence set from all ids, then one store per requested flag change, each
over the whole set. -/
def SetFlagsMultiple (mailbox : String) (ids : List String)
    (read unread star unstar : Bool) :
    List ProtocolCall × Option ClientError :=
  match buildSeqSet ids with
  | Except.error badId =>
      ([ProtocolCall.select mailbox], some (ClientError.invalidMessageId badId))
  | Except.ok nums =>
      ([ProtocolCall.select mailbox]
        ++ (if read then [ProtocolCall.store nums StoreOp.add MailFlag.seen] else [])
        ++ (if unread then [ProtocolCall.store nums StoreOp.del MailFlag.seen] else [])
        ++ (if star then [ProtocolCall.store nums StoreOp.add MailFlag.flagged] else [])
        ++ (if unstar then [ProtocolCall.store nums StoreOp.del MailFlag.flagged] else []),
       none)

/-! Specification-side views used to state the batch theorems. -/

/-- First id in the list that does not scan as a `uint32`, if any. -/
def firstInvalidId : List String → Option String
  | [] => none
  | id :: rest =>
    match goScanUint32 id with
    | none => some id
    | some _ => firstInvalidId rest

/-- Sequence numbers of the longest valid prefix of the id list. -/
def validSeqPrefix : List String → List Nat
  | [] => []
  | id :: rest =>
    match goScanUint32 id with
    | none => []
    | some n => n :: validSeqPrefix rest

/-! ### MIME body-structure walker (`client.go`)

A fetched `BODYSTRUCTURE` is a tree: `single` models
`imap.BodyStructureSinglePart` restricted to the fields the walker reads
(type, subtype, Content-Type params, disposition value + params, size);
`multi` models `imap.BodyStructureMultiPart` (only `Children` is read).
Go maps are modelled as association lists with first-match lookup. -/

inductive BodyStructure where
  | single (typ subtyp : String) (params : List (String × String))
      (disp : Option (String × List (String × String))) (size : Nat)
  | multi (children : List BodyStructure)

structure Attachment where
  index : Nat
  filename : String
  contentType : String
  size : Nat
deriving DecidableEq, Repr

/-- Lookup in a Go map modelled as an association list. -/
def lookupParam (params : List (String × String)) (key : String) : Option String :=
  (params.find? (fun p => p.1 = key)).map (fun p => p.2)

/-- Filename resolution shared verbatim by `extractAttachments`
(client.go:841-853), `findAttachmentPart` (client.go:984-995) and
`countAttachments` (client.go:1049-1060): the disposition `filename`
parameter if the disposition is present, else the Content-Type `name`
parameter, else empty. -/
def partFilename (params : List (String × String))
    (disp : Option (String × List (String × String))) : String :=
  let fromDisp :=
    match disp with
    | some dv =>
      match lookupParam dv.2 "filename" with
      | some name => name
      | none => ""
    | none => ""
  if fromDisp = "" then
    match lookupParam params "name" with
    | some name => name
    | none => ""
  else fromDisp

/-- Attachment classification shared verbatim by the three walker functions
(client.go:856-862, 997-1002, 1062-1067): a single part is an attachment if
it has a filename, or its disposition is `attachment`, or — when its type is
not `text` — its disposition is absent or not `inline`. -/
def isAttachmentPart (typ : String) (params : List (String × String))
    (disp : Option (String × List (String × String))) : Bool :=
  let filename := partFilename params disp
  let base := filename ≠ "" ||
    (match disp with
     | some dv => dv.1 = "attachment"
     | none => false)
  if !base && typ ≠ "text" then
    match disp with
    | none => true
    | some dv => dv.1 ≠ "inline"
  else base

/-- Models the `fmt.Sscanf(p, "%d", &n)` call in `splitPartNum`
(client.go:1088-1089) whose error is ignored, so `n` keeps its zero value
when the scan fails or overflows a 64-bit int. -/
def goScanIntD (s : String) : Int :=
  let t := s.data.dropWhile isScanSpace
  match t with
  | '-' :: rest =>
    let ds := rest.takeWhile Char.isDigit
    if ds.isEmpty then 0
    else if digitsVal ds < 9223372036854775808 then -(digitsVal ds : Int) else 0
  | _ =>
    let ds := t.takeWhile Char.isDigit
    if ds.isEmpty then 0
    else if digitsVal ds < 9223372036854775808 then (digitsVal ds : Int) else 0

/-- Splitting a character list at every `'.'`, modelling
`strings.Split(s, ".")` for the single-character separator used by
`splitPartNum`. -/
def splitOnDot : List Char → List (List Char)
  | [] => [[]]
  | c :: rest =>
    if c = '.' then [] :: splitOnDot rest
    else
      match splitOnDot rest with
      | [] => [[c]]
      | g :: gs => (c :: g) :: gs

/-- Models `splitPartNum` (client.go:1082-1093): converts a part path such
as `"1.2.3"` into `[1, 2, 3]`. -/
def splitPartNum (s : String) : List Int :=
  if s = "" then []
  else (splitOnDot s.data).map (fun cs => goScanIntD (String.mk cs))

mutual
/-- Models `extractAttachments` (client.go:835-889): pre-order walk
assigning consecutive indices (the Go `*int` counter is threaded
explicitly) to attachment-classified single parts; a part with no filename
defaults to `attachment_<index>`.  The `partNum` argument is computed for
every child exactly as in the source, although the single-part case never
reads it. -/
def extractAttachments : BodyStructure → Nat → String → List Attachment × Nat
  | .single typ subtyp params disp size, index, _ =>
    if isAttachmentPart typ params disp then
      let f := partFilename params disp
      ([{ index := index,
          filename := if f = "" then "attachment_" ++ toString index else f,
          contentType := typ ++ "/" ++ subtyp,
          size := size }], index + 1)
    else ([], index)
  | .multi children, index, partNum => extractList children index partNum 1

def extractList : List BodyStructure → Nat → String → Nat → List Attachment × Nat
  | [], index, _, _ => ([], index)
  | child :: rest, index, partNum, pos =>
    let childPart := if partNum = "" then toString pos
      else partNum ++ "." ++ toString pos
    let r1 := extractAttachments child index childPart
    let r2 := extractList rest r1.2 partNum (pos + 1)
    (r1.1 ++ r2.1, r2.2)
end

mutual
/-- Models `countAttachments` (client.go:1045-1079). -/
def countAttachments : BodyStructure → Nat
  | .single typ _ params disp _ => if isAttachmentPart typ params disp then 1 else 0
  | .multi children => countList children

def countList : List BodyStructure → Nat
  | [] => 0
  | child :: rest => countAttachments child + countList rest
end

structure AttachmentPartInfo where
  partNums : List Int
  filename : String
deriving DecidableEq, Repr

mutual
/-- Models `findAttachmentPart` (client.go:981-1042): locate the part path
of the attachment with the given index, skipping subtrees by adding their
attachment counts to the running index. -/
def findAttachmentPart : BodyStructure → Nat → String → Nat → Option AttachmentPartInfo
  | .single typ _ params disp _, targetIndex, partNum, currentIndex =>
    if isAttachmentPart typ params disp then
      if currentIndex = targetIndex then
        let f := partFilename params disp
        some { partNums := splitPartNum partNum,
               filename := if f = "" then "attachment_" ++ toString targetIndex else f }
      else none
    else none
  | .multi children, targetIndex, partNum, currentIndex =>
    findList children targetIndex partNum currentIndex 1

def findList : List BodyStructure → Nat → String → Nat → Nat → Option AttachmentPartInfo
  | [], _, _, _, _ => none
  | child :: rest, targetIndex, partNum, idx, pos =>
    let childPart := if partNum = "" then toString pos
      else partNum ++ "." ++ toString pos
    let childCount := countAttachments child
    match findAttachmentPart child targetIndex childPart idx with
    | some result => some result
    | none => findList rest targetIndex partNum (idx + childCount) (pos + 1)
end

/-! Specification-side view of the walker: the pre-order enumeration of
attachment-classified leaves with their part paths, as the claims describe
it.  Compared against the source-side functions in the theorems. -/

structure LeafInfo where
  path : String
  rawFilename : String
  contentType : String
  size : Nat
deriving DecidableEq, Repr

mutual
/-- Pre-order list of attachment-classified leaves of a MIME tree, each
with its dot-separated 1-based part path. -/
def preorderLeaves : BodyStructure → String → List LeafInfo
  | .single typ subtyp params disp size, partNum =>
    if isAttachmentPart typ params disp then
      [{ path := partNum, rawFilename := partFilename params disp,
         contentType := typ ++ "/" ++ subtyp, size := size }]
    else []
  | .multi children, partNum => preorderLeavesList children partNum 1

def preorderLeavesList : List BodyStructure → String → Nat → List LeafInfo
  | [], _, _ => []
  | child :: rest, partNum, pos =>
    let childPart := if partNum = "" then toString pos
      else partNum ++ "." ++ toString pos
    preorderLeaves child childPart ++ preorderLeavesList rest partNum (pos + 1)
end

/-- Attachment descriptor built from the i-th pre-order leaf, as
`extractAttachments` builds it. -/
def mkAtt (i : Nat) (l : LeafInfo) : Attachment :=
  { index := i,
    filename := if l.rawFilename = "" then "attachment_" ++ toString i else l.rawFilename,
    contentType := l.contentType,
    size := l.size }

/-- Descriptors for a leaf list, indexed consecutively from `i`. -/
def buildAtts : List LeafInfo → Nat → List Attachment
  | [], _ => []
  | l :: rest, i => mkAtt i l :: buildAtts rest (i + 1)

/-- Part info built from the i-th pre-order leaf, as `findAttachmentPart`
returns it. -/
def mkInfo (i : Nat) (l : LeafInfo) : AttachmentPartInfo :=
  { partNums := splitPartNum l.path,
    filename := if l.rawFilename = "" then "attachment_" ++ toString i else l.rawFilename }

/-- Sample MIME tree with seven leaves, the attachment-classified ones at
pre-order leaf positions 2, 5 and 7 (the fifth leaf sits at part path
`4.2`), mirroring the walker example in the specification. -/
def sampleTree : BodyStructure :=
  .multi
    [.single "text" "plain" [] none 11,
     .single "application" "zip" [] none 22,
     .single "text" "html" [] none 33,
     .multi
       [.single "text" "plain" [] none 44,
        .single "image" "png" [("name", "pic.png")] none 55],
     .single "text" "plain" [] none 66,
     .single "application" "pdf" []
       (some ("attachment", [("filename", "doc.pdf")])) 77]

/-- Second sample tree used for the consistency claim: two attachments,
one nested. -/
def sampleTree2 : BodyStructure :=
  .multi
    [.single "text" "plain" [] none 10,
     .multi
       [.single "text" "html" [] none 20,
        .single "application" "pdf" []
          (some ("attachment", [("filename", "a.pdf")])) 30],
     .single "image" "jpeg" [("name", "b.jpg")] (some ("inline", [])) 40]

/-! ### String search and prefix helpers

`matchPre`/`findSub` model `strings.HasPrefix` and `strings.Index` over
character lists (the raw strings handled by the resolver and composer are
ASCII, where Go's byte indices coincide with character indices). -/

/-- Does `needle` occur at the start of `hay`? -/
def matchPre : List Char → List Char → Bool
  | [], _ => true
  | _ :: _, [] => false
  | n :: ns, c :: cs => n == c && matchPre ns cs

/-- Index of the first occurrence of `needle` in `hay`;
`none` models the `-1` returned by `strings.Index`. -/
def findSub : List Char → List Char → Option Nat
  | needle, [] => if needle.isEmpty then some 0 else none
  | needle, c :: rest =>
    if matchPre needle (c :: rest) then some 0
    else (findSub needle rest).map (fun i => i + 1)

/-- Models `strings.HasPrefix s pre`. -/
def goHasPre (s pre : String) : Bool :=
  matchPre pre.data s.data

/-- Models `strings.Index s sub`. -/
def goStringsIndex (s sub : String) : Option Nat :=
  findSub sub.data s.data

/-! ### Message body resolver (`mail.go`)

`parseMessageBody` (mail.go:889-951) parses the raw bytes with the
go-message mail reader and iterates its parts.  The reader is an external
library; its outcome is modelled by `MimeParse`: `failed` is a
`mail.CreateReader` error, and `parsed ct parts` carries the top-level
Content-Type header and the parts yielded by `NextPart` (empty when part
iteration stops before yielding anything, the `foundParts == false` path).
A part carries the Content-Type header the loop reads, the body bytes
`io.ReadAll` returns, and whether that read succeeded. -/

structure MailPart where
  contentType : String
  body : String
  readOk : Bool
deriving DecidableEq, Repr

inductive MimeParse where
  | failed
  | parsed (contentType : String) (parts : List MailPart)
deriving DecidableEq, Repr

/-- Models the part loop of `parseMessageBody` (mail.go:903-927): each
`text/plain` part whose body reads successfully overwrites `textBody`,
each `text/html` part overwrites `htmlBody`. -/
def resolveLoop : List MailPart → String → String → String × String
  | [], t, h => (t, h)
  | p :: rest, t, h =>
    if goHasPre p.contentType "text/plain" then
      resolveLoop rest (if p.readOk then p.body else t) h
    else if goHasPre p.contentType "text/html" then
      resolveLoop rest t (if p.readOk then p.body else h)
    else
      resolveLoop rest t h

/-- Models the single-part fallback of `parseMessageBody`
(mail.go:929-948): split at the first `\r\n\r\n` (else `\n\n`) and classify
the remainder by the top-level Content-Type. -/
def manualSplit (raw contentType : String) : String × String :=
  match goStringsIndex raw "\r\n\r\n" with
  | some idx =>
    let body := String.mk (raw.data.drop (idx + 4))
    if goHasPre contentType "text/html" then ("", body) else (body, "")
  | none =>
    match goStringsIndex raw "\n\n" with
    | some idx =>
      let body := String.mk (raw.data.drop (idx + 2))
      if goHasPre contentType "text/html" then ("", body) else (body, "")
    | none => ("", "")

/-- Models `parseMessageBody` (mail.go:889-951) given the library parse
outcome for the raw bytes: a reader error falls back to treating the whole
input as plain text; a parse with no parts falls back to the manual split;
otherwise the part loop runs. -/
def parseMessageBody (raw : String) (parse : MimeParse) : String × String :=
  match parse with
  | MimeParse.failed => (raw, "")
  | MimeParse.parsed ct parts =>
    if parts.isEmpty then manualSplit raw ct
    else resolveLoop parts "" ""

/-- Specification-side view for the resolver theorems: the body of the last
part of the given content-type kind whose read succeeded. -/
def lastReadBody (kind : String) : List MailPart → Option String
  | [] => none
  | p :: rest =>
    match lastReadBody kind rest with
    | some b => some b
    | none =>
      if goHasPre p.contentType kind && p.readOk then some p.body else none

/-! ### Message composer (`smtp/client.go`, file part_003)

`writeMessage` writes to the SMTP `DATA` stream it is handed.  The stream
is modelled by the string of bytes written to it; the compose-time inputs
that Go obtains from ambient state are explicit parameters: `date` for
`time.Now().Format(time.RFC1123Z)`, `boundary` for the random
`multipart.Writer` boundary, `fs` for the file system
(`os.Open` + `io.ReadAll`, `none` = the open fails), and `mimeByExt` for
the platform `mime.TypeByExtension` table (returning `""` when unknown). -/

structure OutgoingMessage where
  fromAddr : String
  toAddrs : List String
  cc : List String
  bcc : List String
  subject : String
  body : String
  attachments : List String
  inReplyTo : String
  references : String
deriving DecidableEq, Repr

inductive SmtpError where
  | attachmentOpen (path : String)
deriving DecidableEq, Repr

/-- Models `strings.Join(xs, ", ")`. -/
def commaJoin : List String → String
  | [] => ""
  | [x] => x
  | x :: rest => x ++ ", " ++ commaJoin rest

/-- Models `encodeSubject` (part_003:540-556): ASCII subjects are returned
verbatim; subjects with a codepoint above 127 delegate to
`mime.QEncoding.Encode("utf-8", subject)`, modelled as a single RFC 2047
encoded word over the UTF-8 bytes (the 75-byte encoded-word splitting of
the Go encoder is not modelled; no theorem depends on this branch). -/
def encodeSubject (subject : String) : String :=
  if subject.data.all (fun c => c.toNat ≤ 127) then subject
  else
    let qByte : Nat → List Char := fun b =>
      let hex : Nat → Char := fun n =>
        if n < 10 then Char.ofNat (48 + n) else Char.ofNat (55 + n)
      if b = 32 then ['_']
      else if b ≥ 33 && b ≤ 126 && b ≠ 61 && b ≠ 63 && b ≠ 95 then [Char.ofNat b]
      else ['=', hex (b / 16), hex (b % 16)]
    "=?utf-8?q?" ++ String.mk ((subject.toUTF8.toList.map (fun b => qByte b.toNat)).flatten)
      ++ "?="

/-- Header block of `writeMessage` (part_003:452-466), written to the
stream before the body branch. -/
def messageHeaderLines (msg : OutgoingMessage) (date : String) : String :=
  "From: " ++ msg.fromAddr ++ "\r\n" ++
  "To: " ++ commaJoin msg.toAddrs ++ "\r\n" ++
  (if msg.cc.length > 0 then "Cc: " ++ commaJoin msg.cc ++ "\r\n" else "") ++
  "Subject: " ++ encodeSubject msg.subject ++ "\r\n" ++
  "Date: " ++ date ++ "\r\n" ++
  (if msg.inReplyTo ≠ "" then "In-Reply-To: " ++ msg.inReplyTo ++ "\r\n" else "") ++
  (if msg.references ≠ "" then "References: " ++ msg.references ++ "\r\n" else "") ++
  "MIME-Version: 1.0\r\n"

/-- Character of the standard base64 alphabet. -/
def b64Char (n : Nat) : Char :=
  if n < 26 then Char.ofNat (65 + n)
  else if n < 52 then Char.ofNat (97 + (n - 26))
  else if n < 62 then Char.ofNat (48 + (n - 52))
  else if n = 62 then '+'
  else '/'

/-- Standard base64 encoding with padding (`encoding/base64.StdEncoding`),
over bytes given as naturals below 256. -/
def base64Chunks : List Nat → List Char
  | [] => []
  | [a] => [b64Char (a / 4), b64Char ((a % 4) * 16), '=', '=']
  | [a, b] => [b64Char (a / 4), b64Char ((a % 4) * 16 + b / 16),
               b64Char ((b % 16) * 4), '=']
  | a :: b :: c :: rest =>
    [b64Char (a / 4), b64Char ((a % 4) * 16 + b / 16),
     b64Char ((b % 16) * 4 + c / 64), b64Char (c % 64)] ++ base64Chunks rest

/-- Models the 76-character hard-wrap loop of `writeMessage`
(part_003:524-531): full 76-character chunks are each followed by CRLF, the
final partial chunk is written bare.  Fuel-driven; the initial fuel is the
input length, which bounds the number of chunks. -/
def wrap76 : Nat → List Char → List Char
  | _, [] => []
  | 0, s => s
  | fuel + 1, s =>
    if s.length > 76 then s.take 76 ++ ['\r', '\n'] ++ wrap76 fuel (s.drop 76)
    else s

/-- Models `filepath.Base` for the slash-separated paths the composer
receives: the part after the last `/`, with Go's conventions for empty and
all-slash paths. -/
def filepathBase (p : String) : String :=
  if p = "" then "."
  else
    let trimmed := (p.data.reverse.dropWhile (fun c => c = '/')).reverse
    if trimmed.isEmpty then "/"
    else String.mk ((trimmed.reverse.takeWhile (fun c => c != '/')).reverse)

/-- Models `filepath.Ext`: the suffix from the final dot of the final path
element, empty if there is none. -/
def filepathExt (name : String) : String :=
  let tail := name.data.reverse.takeWhile (fun c => c != '/')
  let ext := tail.takeWhile (fun c => c != '.')
  if ext.length = tail.length then ""
  else String.mk (('.' :: ext).reverse)

/-- Attachment loop of `writeMessage` (part_003:495-532), accumulating the
multipart buffer: each part is opened and read via `fs`; the first path
that cannot be opened aborts with that path.  Part headers appear in the
sorted order `mime/multipart` writes a `textproto.MIMEHeader` in; the `%q`
quoting of the filename is modelled as plain double quotes (the paths used
by the theorems need no escaping). -/
def attachmentLoop (fs : String → Option (List Nat)) (mimeByExt : String → String)
    (boundary : String) : List String → String → Except String String
  | [], buf => Except.ok buf
  | path :: rest, buf =>
    match fs path with
    | none => Except.error path
    | some content =>
      let filename := filepathBase path
      let ct0 := mimeByExt (filepathExt filename)
      let ct := if ct0 = "" then "application/octet-stream" else ct0
      let encoded := base64Chunks content
      let buf2 := buf ++ "\r\n--" ++ boundary ++ "\r\n"
        ++ "Content-Disposition: attachment; filename=\"" ++ filename ++ "\"\r\n"
        ++ "Content-Transfer-Encoding: base64\r\n"
        ++ "Content-Type: " ++ ct ++ "\r\n"
        ++ "\r\n" ++ String.mk (wrap76 encoded.length encoded)
      attachmentLoop fs mimeByExt boundary rest buf2

/-- Models `writeMessage` (part_003:449-538).  The first component is the
byte string written to the stream `w`; the second is the returned error.
Headers go to `w` before the branch on attachments; with attachments, the
multipart Content-Type line and blank line also go to `w` directly, while
the text part and attachment parts are buffered and flushed to `w` only
after every attachment has been read successfully. -/
def writeMessage (msg : OutgoingMessage) (date boundary : String)
    (fs : String → Option (List Nat)) (mimeByExt : String → String) :
    String × Option SmtpError :=
  let headers := messageHeaderLines msg date
  if msg.attachments.isEmpty then
    (headers ++ "Content-Type: text/plain; charset=utf-8\r\n"
      ++ "Content-Transfer-Encoding: quoted-printable\r\n"
      ++ "\r\n" ++ msg.body ++ "\r\n", none)
  else
    let headers2 := headers
      ++ "Content-Type: multipart/mixed; boundary=" ++ boundary ++ "\r\n"
      ++ "\r\n"
    let buf0 := "--" ++ boundary ++ "\r\n"
      ++ "Content-Transfer-Encoding: quoted-printable\r\n"
      ++ "Content-Type: text/plain; charset=utf-8\r\n"
      ++ "\r\n" ++ msg.body
    match attachmentLoop fs mimeByExt boundary msg.attachments buf0 with
    | Except.error path => (headers2, some (SmtpError.attachmentOpen path))
    | Except.ok buf =>
      (headers2 ++ buf ++ "\r\n--" ++ boundary ++ "--\r\n", none)

/-- Models `Send` (part_003:385-447) from the point where the `DATA`
stream is open, the wire-level steps having succeeded: `writeMessage`
writes into the stream; on error the stream is closed and the error
returned, so `dataBytes` is exactly what reached the `DATA` stream either
way. -/
structure SendResult where
  dataBytes : String
  result : Option SmtpError
deriving DecidableEq, Repr

def Send (msg : OutgoingMessage) (date boundary : String)
    (fs : String → Option (List Nat)) (mimeByExt : String → String) : SendResult :=
  let r := writeMessage msg date boundary fs mimeByExt
  { dataBytes := r.1, result := r.2 }

/-! ### Library model: mail reader on composed non-multipart messages

`parseMessageBody` delegates raw-byte parsing to the go-message mail
reader.  For the round-trip claim the input is a message the composer
itself produced: a well-formed non-multipart entity.  On such inputs the
reader splits headers from body at the first blank line, reads the
Content-Type and Content-Transfer-Encoding headers, and yields exactly one
part whose body is the transfer-decoded body section
(`mime/quotedprintable` for `quoted-printable`).  Multipart part iteration
is not part of this model (no theorem feeds it a multipart input): such
inputs are mapped to a parse with no parts. -/

/-- Split a raw message at the first `\r\n\r\n` into header block and body
section. -/
def headerBodySplit (raw : String) : Option (String × String) :=
  (findSub "\r\n\r\n".data raw.data).map
    (fun i => (String.mk (raw.data.take i), String.mk (raw.data.drop (i + 4))))

/-- Split a header block into lines at each CRLF. -/
def splitLinesCRLF : List Char → List (List Char)
  | [] => [[]]
  | '\r' :: '\n' :: rest => [] :: splitLinesCRLF rest
  | c :: rest =>
    match splitLinesCRLF rest with
    | [] => [[c]]
    | l :: ls => (c :: l) :: ls

/-- Case-insensitive ASCII prefix match. -/
def matchPreCI : List Char → List Char → Bool
  | [], _ => true
  | _ :: _, [] => false
  | n :: ns, c :: cs => n.toLower == c.toLower && matchPreCI ns cs

/-- Header lookup (`Header.Get`): first line whose name matches the key
case-insensitively, value with leading whitespace dropped. -/
def headerGet (hdr : String) (key : String) : String :=
  match (splitLinesCRLF hdr.data).find?
      (fun line => matchPreCI (key.data ++ [':']) line) with
  | some line =>
    String.mk ((line.drop (key.length + 1)).dropWhile (fun c => c = ' ' || c = '\t'))
  | none => ""

/-- Hexadecimal digit value, as accepted by the quoted-printable reader. -/
def hexVal (c : Char) : Option Nat :=
  if '0' ≤ c ∧ c ≤ '9' then some (c.toNat - 48)
  else if 'A' ≤ c ∧ c ≤ 'F' then some (c.toNat - 55)
  else if 'a' ≤ c ∧ c ≤ 'f' then some (c.toNat - 87)
  else none

/-- Whitespace discarded at line ends by `mime/quotedprintable`. -/
def isQPDiscardWs (c : Char) : Bool :=
  c = '\n' || c = '\r' || c = ' ' || c = '\t'

/-- Split into lines, each keeping its trailing `\n` if present. -/
def qpLines : List Char → List (List Char)
  | [] => []
  | c :: rest =>
    if c = '\n' then ['\n'] :: qpLines rest
    else
      match qpLines rest with
      | [] => [[c]]
      | l :: ls => (c :: l) :: ls

/-- Drop trailing characters satisfying `p`. -/
def trimRightWhile (l : List Char) (p : Char → Bool) : List Char :=
  (l.reverse.dropWhile p).reverse

/-- Suffix test over character lists. -/
def endsWith (suf l : List Char) : Bool :=
  matchPre suf.reverse l.reverse

/-- Line preparation of the `mime/quotedprintable` reader: strip trailing
discarded whitespace, handle the `=` soft line break (which must be
followed by LF or CRLF in the stripped part), and restore the hard line
terminator. -/
def qpPrepLine (line : List Char) : Option (List Char) :=
  let hasLF := endsWith ['\n'] line
  let hasCR := endsWith ['\r', '\n'] line
  let trimmed := trimRightWhile line isQPDiscardWs
  if endsWith ['='] trimmed then
    let rightStripped := line.drop trimmed.length
    if matchPre ['\n'] rightStripped || matchPre ['\r', '\n'] rightStripped then
      some trimmed.dropLast
    else none
  else if hasLF then
    if hasCR then some (trimmed ++ ['\r', '\n']) else some (trimmed ++ ['\n'])
  else some trimmed

/-- Byte loop of the quoted-printable reader: `=XY` decodes to a byte,
failing on malformed hex; other characters (including the restored CR/LF)
pass through. -/
def qpDecodeBytes : List Char → Option (List Char)
  | [] => some []
  | c :: rest =>
    if c = '=' then
      match rest with
      | a :: b :: rest2 =>
        match hexVal a, hexVal b with
        | some x, some y =>
          (qpDecodeBytes rest2).map (fun d => Char.ofNat (16 * x + y) :: d)
        | _, _ => none
      | _ => none
    else (qpDecodeBytes rest).map (fun d => c :: d)

/-- Quoted-printable decoding of a whole body: line by line. -/
def qpDecodeAll : List (List Char) → Option (List Char)
  | [] => some []
  | l :: ls =>
    match qpPrepLine l with
    | none => none
    | some pl =>
      match qpDecodeBytes pl with
      | none => none
      | some d => (qpDecodeAll ls).map (fun rest => d ++ rest)

/-- Models the `mime/quotedprintable` reader; `none` models a read error. -/
def qpDecode (s : List Char) : Option (List Char) :=
  qpDecodeAll (qpLines s)

/-- Transfer decoding of a part body; a quoted-printable read error makes
`io.ReadAll` fail, which the resolver observes as `readOk = false` (the
partial bytes it returns are discarded by the resolver in that case). -/
def decodeTransfer (cte : String) (body : String) : String × Bool :=
  if cte = "quoted-printable" then
    match qpDecode body.data with
    | some d => (String.mk d, true)
    | none => ("", false)
  else (body, true)

/-- Library model of `mail.CreateReader` + `NextPart` on the composed
messages fed to it (see the section comment). -/
def goMailParse (raw : String) : MimeParse :=
  match headerBodySplit raw with
  | none => MimeParse.failed
  | some hb =>
    let ct := headerGet hb.1 "Content-Type"
    if goHasPre ct "multipart/" then MimeParse.parsed ct []
    else
      let cte := headerGet hb.1 "Content-Transfer-Encoding"
      let d := decodeTransfer cte hb.2
      MimeParse.parsed ct [{ contentType := ct, body := d.1, readOk := d.2 }]

/-! Concrete fixtures for the composer/resolver claims. -/

/-- File system in which no path opens. -/
def emptyFs : String → Option (List Nat) := fun _ => none

/-- Extension table that knows no type (the composer then falls back to
`application/octet-stream`). -/
def noMime : String → String := fun _ => ""

/-- Compose-time date stamp used by the concrete theorems. -/
def date0 : String := "Mon, 01 Jan 2024 00:00:00 +0000"

/-- Attachment-free ASCII message with the given body. -/
def plainMsg (b : String) : OutgoingMessage :=
  { fromAddr := "sender@example.com",
    toAddrs := ["recipient@example.com"],
    cc := [], bcc := [],
    subject := "Test Subject",
    body := b,
    attachments := [],
    inReplyTo := "", references := "" }

/-- Header block the composer emits for `plainMsg`, up to and including
the blank line. -/
def plainHdr : String :=
  "From: sender@example.com\r\n"
  ++ "To: recipient@example.com\r\n"
  ++ "Subject: Test Subject\r\n"
  ++ "Date: Mon, 01 Jan 2024 00:00:00 +0000\r\n"
  ++ "MIME-Version: 1.0\r\n"
  ++ "Content-Type: text/plain; charset=utf-8\r\n"
  ++ "Content-Transfer-Encoding: quoted-printable\r\n"
  ++ "\r\n"

/-- Header block of `plainMsg` messages without the final blank-line
terminator: `plainHdr` is `plainHdrHead ++ "\r\n\r\n"`, and the CRLF
CRLF at that junction is the first one in the composed bytes. -/
def plainHdrHead : String :=
  "From: sender@example.com\r\n"
  ++ "To: recipient@example.com\r\n"
  ++ "Subject: Test Subject\r\n"
  ++ "Date: Mon, 01 Jan 2024 00:00:00 +0000\r\n"
  ++ "MIME-Version: 1.0\r\n"
  ++ "Content-Type: text/plain; charset=utf-8\r\n"
  ++ "Content-Transfer-Encoding: quoted-printable"

/-- Message with one attachment path that cannot be opened, mirroring
`TestWriteMessageAttachmentNotFound`. -/
def msgBadAttachment : OutgoingMessage :=
  { fromAddr := "sender@example.com",
    toAddrs := ["recipient@example.com"],
    cc := [], bcc := [],
    subject := "Test",
    body := "Body",
    attachments := ["/nonexistent/file.pdf"],
    inReplyTo := "", references := "" }

/-! ### HTML-to-text converter (`mail.go`)

`htmlToText` (mail.go:1022-1056) is a pipeline of regexp replacements plus
entity decoding and whitespace normalisation.  Each pass below models one
`regexp.ReplaceAllString` call as a one-pass left-to-right scan replacing
non-overlapping leftmost matches, with the Go pattern quoted in the doc
comment.  The scans are fuel-driven (fuel = input length bounds the number
of scan steps) so that concrete inputs evaluate by kernel reduction. -/

/-- Rest of the input after the first case-insensitive occurrence of
`pat`, if any. -/
def dropThroughCI (pat : List Char) : List Char → Option (List Char)
  | [] => none
  | c :: rest =>
    if matchPreCI pat (c :: rest) then some ((c :: rest).drop pat.length)
    else dropThroughCI pat rest

/-- Models `(?is)<TAG[^>]*>.*?</TAG>` → `""` (the `<style>` and `<script>`
strips, mail.go:1024-1027): at each `<` followed by the tag name
(case-insensitively), the match runs up to the first `>` and then lazily to
the first closing tag; without a `>` or a closing tag there is no match at
this position. -/
def stripBlocks (tag close : List Char) : Nat → List Char → List Char
  | _, [] => []
  | 0, s => s
  | fuel + 1, c :: rest =>
    if c = '<' && matchPreCI tag rest then
      let after := rest.drop tag.length
      let run := after.takeWhile (fun x => x != '>')
      if run.length = after.length then c :: stripBlocks tag close fuel rest
      else
        match dropThroughCI close (after.drop (run.length + 1)) with
        | some t => stripBlocks tag close fuel t
        | none => c :: stripBlocks tag close fuel rest
    else c :: stripBlocks tag close fuel rest

/-- The alternation `p|div|tr|li|h[1-6]` of the block-closing pattern. -/
def blockTags : List (List Char) :=
  [['p'], ['d','i','v'], ['t','r'], ['l','i'],
   ['h','1'], ['h','2'], ['h','3'], ['h','4'], ['h','5'], ['h','6']]

/-- First alternative of `TAG>` matching case-insensitively at the head;
returns the rest after the `>`. -/
def matchAltTag : List (List Char) → List Char → Option (List Char)
  | [], _ => none
  | tag :: more, s =>
    if matchPreCI (tag ++ ['>']) s then some (s.drop (tag.length + 1))
    else matchAltTag more s

/-- Models `(?i)</(p|div|tr|li|h[1-6])>` → `"\n"` (mail.go:1030-1031). -/
def blockClosePass : Nat → List Char → List Char
  | _, [] => []
  | 0, s => s
  | fuel + 1, c :: rest =>
    if c = '<' then
      match rest with
      | '/' :: rest2 =>
        match matchAltTag blockTags rest2 with
        | some t => '\n' :: blockClosePass fuel t
        | none => c :: blockClosePass fuel rest
      | _ => c :: blockClosePass fuel rest
    else c :: blockClosePass fuel rest

/-- The RE2 character class `\s` = `[\t\n\x0c\x0d ]`. -/
def isRegexSpace (c : Char) : Bool :=
  c = '\t' || c = '\n' || c = '\x0c' || c = '\r' || c = ' '

/-- Models `(?i)<br\s*/?>` → `"\n"` (mail.go:1034-1035). -/
def brPass : Nat → List Char → List Char
  | _, [] => []
  | 0, s => s
  | fuel + 1, c :: rest =>
    if c = '<' && matchPreCI ['b', 'r'] rest then
      let afterWs := (rest.drop 2).dropWhile isRegexSpace
      let afterSlash := if matchPre ['/'] afterWs then afterWs.drop 1 else afterWs
      match afterSlash with
      | '>' :: t => '\n' :: brPass fuel t
      | _ => c :: brPass fuel rest
    else c :: brPass fuel rest

/-- Tail of a link match after `href=`: `["']([^"']+)["'][^>]*>([^<]*)</a>`;
returns (url, text, rest after the match).  The sub-patterns are
deterministic: each greedy class runs to the character that terminates
it. -/
def linkTail (u : List Char) : Option (List Char × List Char × List Char) :=
  match u with
  | q :: u2 =>
    if q = '"' || q = '\x27' then
      let url := u2.takeWhile (fun c => c != '"' && c != '\x27')
      if url.isEmpty then none
      else
        match u2.drop url.length with
        | q2 :: u3 =>
          if q2 = '"' || q2 = '\x27' then
            let run2 := u3.takeWhile (fun c => c != '>')
            match u3.drop run2.length with
            | '>' :: u4 =>
              let txt := u4.takeWhile (fun c => c != '<')
              let u5 := u4.drop txt.length
              if matchPreCI ['<', '/', 'a', '>'] u5 then some (url, txt, u5.drop 4)
              else none
            | _ => none
          else none
        | [] => none
    else none
  | [] => none

/-- Backtracking over the position of `href=` inside the `[^>]+` run,
largest (greediest) candidate first. -/
def tryHrefs (s : List Char) : List Nat → Option (List Char × List Char × List Char)
  | [] => none
  | j :: more =>
    if matchPre ['h', 'r', 'e', 'f', '='] (s.drop j) then
      match linkTail (s.drop (j + 5)) with
      | some r => some r
      | none => tryHrefs s more
    else tryHrefs s more

/-- One match attempt of the link pattern with the `<a` already consumed:
`[^>]+` must take at least one character and cannot pass a `>`. -/
def linkTryAt (s : List Char) : Option (List Char × List Char × List Char) :=
  let run := s.takeWhile (fun c => c != '>')
  tryHrefs s (((List.range run.length).filter (fun j => 1 ≤ j)).reverse)

/-- Models `(?i)<a[^>]+href=["']([^"']+)["'][^>]*>([^<]*)</a>` → `"$2 [$1]"`
(mail.go:1038-1039). -/
def linkPass : Nat → List Char → List Char
  | _, [] => []
  | 0, s => s
  | fuel + 1, c :: rest =>
    if c = '<' && matchPreCI ['a'] rest then
      match linkTryAt (rest.drop 1) with
      | some r => r.2.1 ++ ' ' :: '[' :: (r.1 ++ (']' :: linkPass fuel r.2.2))
      | none => c :: linkPass fuel rest
    else c :: linkPass fuel rest

/-- Models `<[^>]+>` → `""` (mail.go:1042-1043): from a `<` to the first
`>` with at least one character between them. -/
def tagStripPass : Nat → List Char → List Char
  | _, [] => []
  | 0, s => s
  | fuel + 1, c :: rest =>
    if c = '<' then
      let run := rest.takeWhile (fun x => x != '>')
      match rest.drop run.length with
      | '>' :: t =>
        if run.isEmpty then c :: tagStripPass fuel rest
        else tagStripPass fuel t
      | _ => c :: tagStripPass fuel rest
    else c :: tagStripPass fuel rest

/-- Named entities of the `html.UnescapeString` model: the XML five plus
`nbsp`, all with their terminating semicolon.  The full Go entity table
(hundreds of names, legacy semicolon-free forms) is not reproduced; the
theorems only feed the converter entities from this list or numeric
references, and on `&`-free text the full function and this model agree
(both are the identity there). -/
def namedEntities : List (List Char × Char) :=
  [(['a','m','p',';'], '&'), (['l','t',';'], '<'), (['g','t',';'], '>'),
   (['q','u','o','t',';'], '"'), (['a','p','o','s',';'], '\x27'),
   (['n','b','s','p',';'], '\xa0')]

/-- First named entity matching at the head. -/
def matchEntity : List (List Char × Char) → List Char → Option (Char × List Char)
  | [], _ => none
  | nc :: more, s =>
    if matchPre nc.1 s then some (nc.2, s.drop nc.1.length)
    else matchEntity more s

/-- Models `html.UnescapeString` (mail.go:1046) on the entity forms the
theorems use: named entities from `namedEntities` and decimal numeric
references `&#NNN;` (invalid scalar values become U+FFFD as in Go); other
`&` runs pass through unchanged. -/
def unescapePass : Nat → List Char → List Char
  | _, [] => []
  | 0, s => s
  | fuel + 1, c :: rest =>
    if c = '&' then
      match matchEntity namedEntities rest with
      | some r => r.1 :: unescapePass fuel r.2
      | none =>
        match rest with
        | '#' :: rest2 =>
          let ds := rest2.takeWhile Char.isDigit
          if ds.isEmpty then c :: unescapePass fuel rest
          else
            match rest2.drop ds.length with
            | ';' :: t =>
              let v := digitsVal ds
              let ch := if v < 55296 ∨ (57343 < v ∧ v < 1114112)
                then Char.ofNat v else '\uFFFD'
              ch :: unescapePass fuel t
            | _ => c :: unescapePass fuel rest
        | _ => c :: unescapePass fuel rest
    else c :: unescapePass fuel rest

/-- Models `[ \t]+` → `" "` (mail.go:1049-1050). -/
def collapseSpaces : Nat → List Char → List Char
  | _, [] => []
  | 0, s => s
  | fuel + 1, c :: rest =>
    if c = ' ' || c = '\t' then
      ' ' :: collapseSpaces fuel (rest.dropWhile (fun x => x = ' ' || x = '\t'))
    else c :: collapseSpaces fuel rest

/-- Models `\n{3,}` → `"\n\n"` (mail.go:1052-1053). -/
def collapseNewlines : Nat → List Char → List Char
  | _, [] => []
  | 0, s => s
  | fuel + 1, c :: rest =>
    if c = '\n' then
      let run := rest.takeWhile (fun x => x = '\n')
      if 3 ≤ run.length + 1 then
        '\n' :: '\n' :: collapseNewlines fuel (rest.drop run.length)
      else c :: collapseNewlines fuel rest
    else c :: collapseNewlines fuel rest

/-- Whitespace trimmed by `strings.TrimSpace`. -/
def isGoSpace (c : Char) : Bool :=
  c = ' ' || c = '\t' || c = '\n' || c = '\x0b' || c = '\x0c' || c = '\r'
    || c = '\x85' || c = '\xa0'

/-- Models `strings.TrimSpace` (mail.go:1055). -/
def trimSpace (s : List Char) : List Char :=
  ((s.dropWhile isGoSpace).reverse.dropWhile isGoSpace).reverse

/-- Models `htmlToText` (mail.go:1022-1056): the ordered passes. -/
def htmlToText (htmlContent : String) : String :=
  let s0 := htmlContent.data
  let s1 := stripBlocks ['s','t','y','l','e'] "</style>".data s0.length s0
  let s2 := stripBlocks ['s','c','r','i','p','t'] "</script>".data s1.length s1
  let s3 := blockClosePass s2.length s2
  let s4 := brPass s3.length s3
  let s5 := linkPass s4.length s4
  let s6 := tagStripPass s5.length s5
  let s7 := unescapePass s6.length s6
  let s8 := collapseSpaces s7.length s7
  let s9 := collapseNewlines s8.length s8
  String.mk (trimSpace s9)

/-! Normalisation predicates for the idempotence theorem. -/

/-- No occurrence of the character. -/
def noChar (x : Char) (s : List Char) : Bool :=
  s.all (fun c => c != x)

/-- No two adjacent space-or-tab characters. -/
def noDoubleSpace : List Char → Bool
  | a :: b :: rest =>
    !((a = ' ' || a = '\t') && (b = ' ' || b = '\t')) && noDoubleSpace (b :: rest)
  | _ => true

/-- No three adjacent newlines. -/
def noTripleNl : List Char → Bool
  | a :: b :: c :: rest =>
    !(a = '\n' && b = '\n' && c = '\n') && noTripleNl (b :: c :: rest)
  | _ => true

/-- No leading or trailing Go whitespace. -/
def trimmedB (s : List Char) : Bool :=
  (s.head?.all fun c => !isGoSpace c) && (s.getLast?.all fun c => !isGoSpace c)

/-- A converter output is normalised when it carries no markup characters
and no collapsible whitespace. -/
def normalText (s : List Char) : Bool :=
  noChar '<' s && noChar '&' s && noChar '\t' s
    && noDoubleSpace s && noTripleNl s && trimmedB s

/-! ### Search criteria construction (`mail.go`, `client.go`)

`MailSearchCmd.Run` (mail.go:561-574) turns command flags into
`SearchOptions`, parsing the size strings with `parseSize`;
`buildSearchCriteria` (client.go:576-654) and `buildOrSearchCriteria`
(client.go:657-744) compile the options into one `imap.SearchCriteria`
value, modelled by the inductive `SearchCriteria` below (zero values:
empty lists, `none` dates, 0 sizes). -/

/-- Models `strings.ToUpper` on the ASCII range the size strings use. -/
def goToUpper (c : Char) : Char :=
  if 'a' ≤ c ∧ c ≤ 'z' then Char.ofNat (c.toNat - 32) else c

/-- Models `fmt.Sscanf(s, "%d", &value)` for `value` of Go type `int64`
with the returned error ignored (parseSize, mail.go:1216-1217): `value`
keeps its zero value when no integer can be scanned or the digits
overflow. -/
def goScanInt64D (s : List Char) : Int :=
  let t := s.dropWhile isScanSpace
  match t with
  | '-' :: rest =>
    let ds := rest.takeWhile Char.isDigit
    if ds.isEmpty then 0
    else if digitsVal ds ≤ 9223372036854775808 then -(digitsVal ds : Int) else 0
  | _ =>
    let ds := t.takeWhile Char.isDigit
    if ds.isEmpty then 0
    else if digitsVal ds < 9223372036854775808 then (digitsVal ds : Int) else 0

/-- Models `parseSize` (mail.go:1170-1219): trim and upper-case, strip a
`K`/`M`/`G` suffix (also in the `KB`/`MB`/`GB` forms, and a bare `B`),
then scan the remainder with the error ignored, multiplying by the
suffix's factor. -/
def parseSize (s : String) : Int :=
  if s = "" then 0
  else
    let t := (trimSpace s.data).map goToUpper
    if t.length = 0 then 0
    else
      match t.getLast? with
      | none => 0
      | some suffix =>
        let core :=
          if suffix = 'K' then ((1024 : Int), t.dropLast)
          else if suffix = 'M' then (1048576, t.dropLast)
          else if suffix = 'G' then (1073741824, t.dropLast)
          else if suffix = 'B' then
            if 2 ≤ t.length then
              match t.dropLast.getLast? with
              | some p =>
                if p = 'K' then (1024, t.dropLast.dropLast)
                else if p = 'M' then (1048576, t.dropLast.dropLast)
                else if p = 'G' then (1073741824, t.dropLast.dropLast)
                else (1, t.dropLast)
              | none => (1, t.dropLast)
            else (1, t.dropLast)
          else (1, t)
        goScanInt64D core.2 * core.1

def isLeapYear (y : Nat) : Bool :=
  (y % 4 = 0 && y % 100 != 0) || y % 400 = 0

def daysInMonth (y m : Nat) : Nat :=
  if m = 2 then (if isLeapYear y then 29 else 28)
  else if m = 4 ∨ m = 6 ∨ m = 9 ∨ m = 11 then 30
  else 31

/-- Numeric value of a digit character pair. -/
def twoDigits (a b : Char) : Nat :=
  (a.toNat - 48) * 10 + (b.toNat - 48)

/-- Models `parseDate` (client.go:746-749), i.e.
`time.Parse("2006-01-02", s)`: a four-digit year, two-digit month and
two-digit day separated by dashes, with the month and the day validated
against the calendar; anything else fails. -/
def parseDate (s : String) : Option (Nat × Nat × Nat) :=
  match s.data with
  | [y1, y2, y3, y4, '-', m1, m2, '-', d1, d2] =>
    if (y1.isDigit && y2.isDigit && y3.isDigit && y4.isDigit
        && m1.isDigit && m2.isDigit && d1.isDigit && d2.isDigit) = true then
      let y := twoDigits y1 y2 * 100 + twoDigits y3 y4
      let m := twoDigits m1 m2
      let d := twoDigits d1 d2
      if 1 ≤ m ∧ m ≤ 12 ∧ 1 ≤ d ∧ d ≤ daysInMonth y m then some (y, m, d)
      else none
    else none
  | _ => none

structure SearchOptions where
  query : String
  fromOpt : String
  toOpt : String
  subject : String
  body : String
  since : String
  before : String
  hasAttachments : Bool
  largerThan : Int
  smallerThan : Int
  useOr : Bool
  negate : Bool
deriving DecidableEq, Repr

/-- Models `imap.SearchCriteria` restricted to the fields this code sets:
body substrings, header fields, since/before dates, size bounds, `Not`
children and `Or` pairs. -/
inductive SearchCriteria where
  | mk (body : List String) (header : List (String × String))
      (since before : Option (Nat × Nat × Nat)) (larger smaller : Int)
      (notC : List SearchCriteria) (orC : List (SearchCriteria × SearchCriteria))

def SearchCriteria.body : SearchCriteria → List String
  | .mk b _ _ _ _ _ _ _ => b

def SearchCriteria.header : SearchCriteria → List (String × String)
  | .mk _ h _ _ _ _ _ _ => h

def SearchCriteria.since : SearchCriteria → Option (Nat × Nat × Nat)
  | .mk _ _ s _ _ _ _ _ => s

def SearchCriteria.before : SearchCriteria → Option (Nat × Nat × Nat)
  | .mk _ _ _ b _ _ _ _ => b

def SearchCriteria.larger : SearchCriteria → Int
  | .mk _ _ _ _ l _ _ _ => l

def SearchCriteria.smaller : SearchCriteria → Int
  | .mk _ _ _ _ _ s _ _ => s

def SearchCriteria.notC : SearchCriteria → List SearchCriteria
  | .mk _ _ _ _ _ _ n _ => n

def SearchCriteria.orC : SearchCriteria → List (SearchCriteria × SearchCriteria)
  | .mk _ _ _ _ _ _ _ o => o

def emptyCriteria : SearchCriteria :=
  SearchCriteria.mk [] [] none none 0 0 [] []

/-- Criterion with a single populated field, as the OR path builds them. -/
def bodyLeaf (s : String) : SearchCriteria :=
  SearchCriteria.mk [s] [] none none 0 0 [] []

def headerLeaf (k v : String) : SearchCriteria :=
  SearchCriteria.mk [] [(k, v)] none none 0 0 [] []

def sinceLeaf (d : Nat × Nat × Nat) : SearchCriteria :=
  SearchCriteria.mk [] [] (some d) none 0 0 [] []

def beforeLeaf (d : Nat × Nat × Nat) : SearchCriteria :=
  SearchCriteria.mk [] [] none (some d) 0 0 [] []

def largerLeaf (n : Int) : SearchCriteria :=
  SearchCriteria.mk [] [] none none n 0 [] []

def smallerLeaf (n : Int) : SearchCriteria :=
  SearchCriteria.mk [] [] none none 0 n [] []

/-- Individual criteria of `buildOrSearchCriteria` (client.go:658-715), in
append order; a date filter contributes only when its string parses, a
size filter only when positive. -/
def orLeaves (opts : SearchOptions) : List SearchCriteria :=
  (if opts.query ≠ "" then [bodyLeaf opts.query] else [])
  ++ (if opts.body ≠ "" then [bodyLeaf opts.body] else [])
  ++ (if opts.fromOpt ≠ "" then [headerLeaf "From" opts.fromOpt] else [])
  ++ (if opts.toOpt ≠ "" then [headerLeaf "To" opts.toOpt] else [])
  ++ (if opts.subject ≠ "" then [headerLeaf "Subject" opts.subject] else [])
  ++ (if opts.since ≠ "" then
        match parseDate opts.since with
        | some t => [sinceLeaf t]
        | none => []
      else [])
  ++ (if opts.before ≠ "" then
        match parseDate opts.before with
        | some t => [beforeLeaf t]
        | none => []
      else [])
  ++ (if opts.largerThan > 0 then [largerLeaf opts.largerThan] else [])
  ++ (if opts.smallerThan > 0 then [smallerLeaf opts.smallerThan] else [])
  ++ (if opts.hasAttachments then [headerLeaf "Content-Type" "multipart/mixed"] else [])

/-- The `OR(a, OR(b, OR(c, d)))` chain of client.go:730-737. -/
def orFoldAll : List SearchCriteria → SearchCriteria
  | [] => emptyCriteria
  | [c] => c
  | c :: c2 :: rest =>
    SearchCriteria.mk [] [] none none 0 0 [] [(c, orFoldAll (c2 :: rest))]

/-- Models `buildOrSearchCriteria` (client.go:657-744). -/
def buildOrSearchCriteria (opts : SearchOptions) : SearchCriteria :=
  match orLeaves opts with
  | [] => emptyCriteria
  | [c] =>
    if opts.negate then SearchCriteria.mk [] [] none none 0 0 [c] [] else c
  | c :: c2 :: rest =>
    let result := orFoldAll (c :: c2 :: rest)
    if opts.negate then SearchCriteria.mk [] [] none none 0 0 [result] []
    else result

/-- Models `buildSearchCriteria` (client.go:576-654): the default AND path
populates one criteria value (a failed date parse or non-positive size
leaves the zero value), and `negate` wraps the entire result in one
`Not`. -/
def buildSearchCriteria (opts : SearchOptions) : SearchCriteria :=
  if opts.useOr then buildOrSearchCriteria opts
  else
    let bodyF := (if opts.query ≠ "" then [opts.query] else [])
      ++ (if opts.body ≠ "" then [opts.body] else [])
    let headerF := (if opts.fromOpt ≠ "" then [("From", opts.fromOpt)] else [])
      ++ (if opts.toOpt ≠ "" then [("To", opts.toOpt)] else [])
      ++ (if opts.subject ≠ "" then [("Subject", opts.subject)] else [])
      ++ (if opts.hasAttachments then [("Content-Type", "multipart/mixed")] else [])
    let sinceF := if opts.since ≠ "" then parseDate opts.since else none
    let beforeF := if opts.before ≠ "" then parseDate opts.before else none
    let largerF := if opts.largerThan > 0 then opts.largerThan else 0
    let smallerF := if opts.smallerThan > 0 then opts.smallerThan else 0
    let inner := SearchCriteria.mk bodyF headerF sinceF beforeF largerF smallerF [] []
    if opts.negate then SearchCriteria.mk [] [] none none 0 0 [inner] []
    else inner

/-- Command flags of `mail search` as the handler reads them. -/
structure SearchFlags where
  query : String
  fromOpt : String
  toOpt : String
  subject : String
  body : String
  since : String
  before : String
  hasAttachments : Bool
  largerThan : String
  smallerThan : String
  useOr : Bool
  negate : Bool
deriving DecidableEq, Repr

/-- Models the `SearchOptions` construction of `MailSearchCmd.Run`
(mail.go:561-574): size flags go through `parseSize`, everything else is
passed through. -/
def searchOptsOfFlags (f : SearchFlags) : SearchOptions :=
  { query := f.query, fromOpt := f.fromOpt, toOpt := f.toOpt,
    subject := f.subject, body := f.body, since := f.since, before := f.before,
    hasAttachments := f.hasAttachments,
    largerThan := parseSize f.largerThan,
    smallerThan := parseSize f.smallerThan,
    useOr := f.useOr, negate := f.negate }

/-- Flags used by the C9 counterexample: only a malformed size filter. -/
def flagsSize12abc : SearchFlags :=
  { query := "", fromOpt := "", toOpt := "", subject := "", body := "",
    since := "", before := "", hasAttachments := false,
    largerThan := "12abc", smallerThan := "", useOr := false, negate := false }

/-! ## Lemmas: batch operations -/

theorem deleteLoop_eq : ∀ ids : List String,
    deleteLoop ids =
      ((validSeqPrefix ids).map
        (fun n => ProtocolCall.store [n] StoreOp.add MailFlag.deleted),
       firstInvalidId ids)
  | [] => rfl
  | id :: rest => by
    cases h : goScanUint32 id with
    | none =>
      simp [deleteLoop, h, validSeqPrefix, firstInvalidId]
    | some n =>
      have ih := deleteLoop_eq rest
      simp [deleteLoop, h, validSeqPrefix, firstInvalidId, ih]

theorem buildSeqSet_eq_error : ∀ ids : List String, ∀ bad : String,
    firstInvalidId ids = some bad → buildSeqSet ids = Except.error bad
  | [], bad => by simp [firstInvalidId]
  | id :: rest, bad => by
    cases h : goScanUint32 id with
    | none =>
      intro hf
      simp [firstInvalidId, h] at hf
      subst hf
      simp [buildSeqSet, h]
    | some n =>
      intro hf
      simp [firstInvalidId, h] at hf
      have := buildSeqSet_eq_error rest bad hf
      simp [buildSeqSet, h, this]

theorem buildSeqSet_eq_ok : ∀ ids : List String,
    firstInvalidId ids = none →
    buildSeqSet ids = Except.ok (ids.filterMap goScanUint32)
  | [] => by intro; rfl
  | id :: rest => by
    cases h : goScanUint32 id with
    | none =>
      intro hf
      simp [firstInvalidId, h] at hf
    | some n =>
      intro hf
      simp [firstInvalidId, h] at hf
      have := buildSeqSet_eq_ok rest hf
      simp [buildSeqSet, h, this, List.filterMap_cons]

theorem firstInvalidId_eq_none : ∀ ids : List String,
    (ids.all fun id => (goScanUint32 id).isSome) = true →
    firstInvalidId ids = none
  | [] => by intro; rfl
  | id :: rest => by
    intro h
    simp only [List.all_cons, Bool.and_eq_true] at h
    rcases Option.isSome_iff_exists.mp h.1 with ⟨n, hn⟩
    have := firstInvalidId_eq_none rest h.2
    simp [firstInvalidId, hn, this]

theorem firstInvalidId_exists : ∀ ids : List String,
    (ids.all fun id => (goScanUint32 id).isSome) = false →
    ∃ bad, firstInvalidId ids = some bad
  | [] => by intro h; simp at h
  | id :: rest => by
    intro h
    cases hn : goScanUint32 id with
    | none => exact ⟨id, by simp [firstInvalidId, hn]⟩
    | some n =>
      simp only [List.all_cons, Bool.and_eq_true] at h
      have hrest : (rest.all fun id => (goScanUint32 id).isSome) = false := by
        rcases Bool.and_eq_false_iff.mp h with h1 | h2
        · exfalso; rw [hn] at h1; simp at h1
        · exact h2
      rcases firstInvalidId_exists rest hrest with ⟨bad, hbad⟩
      exact ⟨bad, by simp [firstInvalidId, hn, hbad]⟩

theorem filterMap_goScan_length : ∀ ids : List String,
    (ids.all fun id => (goScanUint32 id).isSome) = true →
    (ids.filterMap goScanUint32).length = ids.length
  | [] => by intro; rfl
  | id :: rest => by
    intro h
    simp only [List.all_cons, Bool.and_eq_true] at h
    rcases Option.isSome_iff_exists.mp h.1 with ⟨n, hn⟩
    have := filterMap_goScan_length rest h.2
    simp [List.filterMap_cons, hn, this]

theorem validSeqPrefix_of_all_valid : ∀ ids : List String,
    (ids.all fun id => (goScanUint32 id).isSome) = true →
    validSeqPrefix ids = ids.filterMap goScanUint32
  | [] => by intro; rfl
  | id :: rest => by
    intro h
    simp only [List.all_cons, Bool.and_eq_true] at h
    rcases Option.isSome_iff_exists.mp h.1 with ⟨n, hn⟩
    have := validSeqPrefix_of_all_valid rest h.2
    simp [validSeqPrefix, List.filterMap_cons, hn, this]

/-! ## Claim C3 -/

/-- C3 (claim as stated, refuted): the claim says a batch operation given
ids `["1","2","x"]` fails with an invalid-identifier error before issuing
any protocol call, with zero calls reaching the session.  In the code,
`DeleteMessages` selects the mailbox and issues one store per valid id
before hitting the invalid id: three protocol calls reach the session. -/
theorem c3_counterexample :
    DeleteMessages "INBOX" ["1", "2", "x"] false =
      ([ProtocolCall.select "INBOX",
        ProtocolCall.store [1] StoreOp.add MailFlag.deleted,
        ProtocolCall.store [2] StoreOp.add MailFlag.deleted],
       some (ClientError.invalidMessageId "x")) ∧
    (DeleteMessages "INBOX" ["1", "2", "x"] false).1.length ≠ 0 := by
  constructor
  · rfl
  · decide

/-- C3 (amended): with any unparsable id in the list, delete/move/flag all
fail with an invalid-identifier error naming the first such id, but only
after the mailbox select call has been issued; `DeleteMessages`
additionally issues one store per valid id preceding the invalid one,
while `MoveMessages` and `SetFlagsMultiple` validate the whole list before
any store/copy, so the select is their only call. -/
theorem c3_invalid_id_after_select (mailbox destMailbox : String)
    (ids : List String) (permanent read unread star unstar : Bool)
    (h : (ids.all fun id => (goScanUint32 id).isSome) = false) :
    ∃ bad, firstInvalidId ids = some bad ∧
      DeleteMessages mailbox ids permanent =
        (ProtocolCall.select mailbox ::
          (validSeqPrefix ids).map
            (fun n => ProtocolCall.store [n] StoreOp.add MailFlag.deleted),
         some (ClientError.invalidMessageId bad)) ∧
      MoveMessages mailbox ids destMailbox =
        ([ProtocolCall.select mailbox], some (ClientError.invalidMessageId bad)) ∧
      SetFlagsMultiple mailbox ids read unread star unstar =
        ([ProtocolCall.select mailbox], some (ClientError.invalidMessageId bad)) := by
  rcases firstInvalidId_exists ids h with ⟨bad, hbad⟩
  refine ⟨bad, hbad, ?_, ?_, ?_⟩
  · simp [DeleteMessages, deleteLoop_eq, hbad]
  · simp [MoveMessages, buildSeqSet_eq_error ids bad hbad]
  · simp [SetFlagsMultiple, buildSeqSet_eq_error ids bad hbad]

theorem c3_witness :
    ((["1", "2", "x"].all fun id => (goScanUint32 id).isSome) = false) ∧
    (∃ bad, firstInvalidId ["1", "2", "x"] = some bad ∧
      DeleteMessages "M" ["1", "2", "x"] false =
        (ProtocolCall.select "M" ::
          (validSeqPrefix ["1", "2", "x"]).map
            (fun n => ProtocolCall.store [n] StoreOp.add MailFlag.deleted),
         some (ClientError.invalidMessageId bad)) ∧
      MoveMessages "M" ["1", "2", "x"] "D" =
        ([ProtocolCall.select "M"], some (ClientError.invalidMessageId bad)) ∧
      SetFlagsMultiple "M" ["1", "2", "x"] true false false false =
        ([ProtocolCall.select "M"], some (ClientError.invalidMessageId bad))) :=
  ⟨by decide, c3_invalid_id_after_select "M" "D" ["1", "2", "x"]
    false true false false false (by decide)⟩

/-! ## Claim C4 -/

/-- C4 (claim as stated, refuted): the claim says every batch operation
issues exactly one store/copy command over one multi-member sequence set
covering all ids.  For ids `["1","2"]`, `DeleteMessages` issues two store
commands, each over a singleton set, and no issued command carries the
set `[1, 2]`. -/
theorem c4_counterexample :
    ((DeleteMessages "INBOX" ["1", "2"] false).1.countP
      ProtocolCall.isStoreOrCopy) = 2 ∧
    ¬ ∃ c ∈ (DeleteMessages "INBOX" ["1", "2"] false).1,
        c.isStoreOrCopy = true ∧ c.seqSetOf = [1, 2] := by
  decide

/-- C4 (amended): for a fully valid id list, `MoveMessages` issues one copy
and one store, each over the single sequence set covering all n ids (plus a
select and an expunge), and `SetFlagsMultiple` issues one store over that
set per requested flag change; `DeleteMessages`, however, issues n separate
single-member store commands, one per id, rather than one command over the
whole set. -/
theorem c4_batch_commands (mailbox destMailbox : String) (ids : List String)
    (h : (ids.all fun id => (goScanUint32 id).isSome) = true)
    (hn : 2 ≤ ids.length) :
    (ids.filterMap goScanUint32).length = ids.length ∧
    MoveMessages mailbox ids destMailbox =
      ([ProtocolCall.select mailbox,
        ProtocolCall.copy (ids.filterMap goScanUint32) destMailbox,
        ProtocolCall.store (ids.filterMap goScanUint32) StoreOp.add MailFlag.deleted,
        ProtocolCall.expunge], none) ∧
    SetFlagsMultiple mailbox ids true false false false =
      ([ProtocolCall.select mailbox,
        ProtocolCall.store (ids.filterMap goScanUint32) StoreOp.add MailFlag.seen],
       none) ∧
    DeleteMessages mailbox ids false =
      (ProtocolCall.select mailbox ::
        (ids.filterMap goScanUint32).map
          (fun n => ProtocolCall.store [n] StoreOp.add MailFlag.deleted),
       none) ∧
    ((DeleteMessages mailbox ids false).1.countP ProtocolCall.isStoreOrCopy)
      = ids.length := by
  have hnone := firstInvalidId_eq_none ids h
  have hok := buildSeqSet_eq_ok ids hnone
  have hlen := filterMap_goScan_length ids h
  refine ⟨hlen, ?_, ?_, ?_, ?_⟩
  · simp [MoveMessages, hok]
  · simp [SetFlagsMultiple, hok]
  · simp [DeleteMessages, deleteLoop_eq, hnone, validSeqPrefix_of_all_valid ids h]
  · have hall : ∀ c ∈ (ids.filterMap goScanUint32).map
        (fun n => ProtocolCall.store [n] StoreOp.add MailFlag.deleted),
        ProtocolCall.isStoreOrCopy c = true := by
      intro c hc
      rcases List.mem_map.mp hc with ⟨n, _, rfl⟩
      rfl
    have hcalls : (DeleteMessages mailbox ids false).1 =
        ProtocolCall.select mailbox ::
          (ids.filterMap goScanUint32).map
            (fun n => ProtocolCall.store [n] StoreOp.add MailFlag.deleted) := by
      simp [DeleteMessages, deleteLoop_eq, hnone, validSeqPrefix_of_all_valid ids h]
    rw [hcalls, List.countP_cons, List.countP_eq_length.mpr hall]
    simp [ProtocolCall.isStoreOrCopy, hlen]

theorem c4_witness :
    ((["3", "7"].all fun id => (goScanUint32 id).isSome) = true) ∧
    (2 ≤ (["3", "7"] : List String).length) ∧
    ((["3", "7"] : List String).filterMap goScanUint32).length = 2 ∧
    MoveMessages "M" ["3", "7"] "D" =
      ([ProtocolCall.select "M",
        ProtocolCall.copy [3, 7] "D",
        ProtocolCall.store [3, 7] StoreOp.add MailFlag.deleted,
        ProtocolCall.expunge], none) := by
  refine ⟨by decide, by decide, by decide, ?_⟩
  have := (c4_batch_commands "M" "D" ["3", "7"] (by decide) (by decide)).2.1
  simpa using this

/-! ## Lemmas: MIME walker -/

theorem buildAtts_append : ∀ (a b : List LeafInfo) (i : Nat),
    buildAtts (a ++ b) i = buildAtts a i ++ buildAtts b (i + a.length)
  | [], b, i => by simp [buildAtts]
  | l :: rest, b, i => by
    have := buildAtts_append rest b (i + 1)
    simp [buildAtts, this]
    congr 1
    omega

theorem buildAtts_length : ∀ (ls : List LeafInfo) (i : Nat),
    (buildAtts ls i).length = ls.length
  | [], _ => rfl
  | l :: rest, i => by simp [buildAtts, buildAtts_length rest (i + 1)]

theorem buildAtts_map_index : ∀ (ls : List LeafInfo) (i : Nat),
    (buildAtts ls i).map (fun a => a.index) = List.range' i ls.length
  | [], _ => rfl
  | l :: rest, i => by
    simp [buildAtts, List.range', mkAtt, buildAtts_map_index rest (i + 1)]

mutual

theorem countAttachments_eq_length : ∀ (t : BodyStructure) (p : String),
    countAttachments t = (preorderLeaves t p).length
  | .single typ subtyp params disp size, p => by
    by_cases h : isAttachmentPart typ params disp <;>
      simp [countAttachments, preorderLeaves, h]
  | .multi children, p => by
    simp only [countAttachments, preorderLeaves]
    exact countList_eq_length children p 1

theorem countList_eq_length : ∀ (cs : List BodyStructure) (p : String) (pos : Nat),
    countList cs = (preorderLeavesList cs p pos).length
  | [], _, _ => rfl
  | c :: rest, p, pos => by
    simp only [countList, preorderLeavesList, List.length_append]
    rw [countAttachments_eq_length c
        (if p = "" then toString pos else p ++ "." ++ toString pos),
      countList_eq_length rest p (pos + 1)]

end

mutual

theorem extractAttachments_eq : ∀ (t : BodyStructure) (i : Nat) (p : String),
    extractAttachments t i p =
      (buildAtts (preorderLeaves t p) i, i + (preorderLeaves t p).length)
  | .single typ subtyp params disp size, i, p => by
    by_cases h : isAttachmentPart typ params disp <;>
      simp [extractAttachments, preorderLeaves, buildAtts, mkAtt, h]
  | .multi children, i, p => by
    simp only [extractAttachments, preorderLeaves]
    exact extractList_eq children i p 1

theorem extractList_eq : ∀ (cs : List BodyStructure) (i : Nat) (p : String) (pos : Nat),
    extractList cs i p pos =
      (buildAtts (preorderLeavesList cs p pos) i,
       i + (preorderLeavesList cs p pos).length)
  | [], i, p, pos => by simp [extractList, preorderLeavesList, buildAtts]
  | c :: rest, i, p, pos => by
    have h1 := extractAttachments_eq c i
      (if p = "" then toString pos else p ++ "." ++ toString pos)
    have h2 := extractList_eq rest
      (i + (preorderLeaves c
        (if p = "" then toString pos else p ++ "." ++ toString pos)).length)
      p (pos + 1)
    simp only [extractList, preorderLeavesList, h1, h2, buildAtts_append,
      List.length_append, Prod.mk.injEq]
    exact ⟨trivial, by omega⟩

end

mutual

theorem findAttachmentPart_eq : ∀ (t : BodyStructure) (target : Nat) (p : String)
    (c : Nat),
    findAttachmentPart t target p c =
      if c ≤ target then ((preorderLeaves t p)[target - c]?).map (mkInfo target)
      else none
  | .single typ subtyp params disp size, target, p, c => by
    by_cases h : isAttachmentPart typ params disp
    · by_cases hc : c = target
      · subst hc
        simp [findAttachmentPart, preorderLeaves, h, mkInfo]
      · have : ¬ (target - c = 0 ∧ c ≤ target) := by omega
        simp only [findAttachmentPart, preorderLeaves, h, if_true, if_neg hc]
        split
        · rename_i hle
          have hpos : target - c ≠ 0 := by omega
          simp [List.getElem?_cons, hpos]
        · rfl
    · simp [findAttachmentPart, preorderLeaves, h]
  | .multi children, target, p, c => by
    simp only [findAttachmentPart, preorderLeaves]
    exact findList_eq children target p c 1

theorem findList_eq : ∀ (cs : List BodyStructure) (target : Nat) (p : String)
    (idx pos : Nat),
    findList cs target p idx pos =
      if idx ≤ target then
        ((preorderLeavesList cs p pos)[target - idx]?).map (mkInfo target)
      else none
  | [], target, p, idx, pos => by simp [findList, preorderLeavesList]
  | c :: rest, target, p, idx, pos => by
    have hcnt := countAttachments_eq_length c
      (if p = "" then toString pos else p ++ "." ++ toString pos)
    have h1 := findAttachmentPart_eq c target
      (if p = "" then toString pos else p ++ "." ++ toString pos) idx
    have h2 := findList_eq rest target p (idx + countAttachments c) (pos + 1)
    simp only [findList, preorderLeavesList, h1, h2]
    by_cases hle : idx ≤ target
    · simp only [if_pos hle]
      cases hv : (preorderLeaves c
          (if p = "" then toString pos else p ++ "." ++ toString pos))[target - idx]? with
      | some v =>
        have hin : target - idx <
            (preorderLeaves c
              (if p = "" then toString pos else p ++ "." ++ toString pos)).length := by
          rcases List.getElem?_eq_some.mp hv with ⟨hw, _⟩
          exact hw
        rw [List.getElem?_append_left hin, hv]
        rfl
      | none =>
        have hlen : (preorderLeaves c
            (if p = "" then toString pos else p ++ "." ++ toString pos)).length
            ≤ target - idx := List.getElem?_eq_none_iff.mp hv
        have hle2 : idx + countAttachments c ≤ target := by omega
        simp only [Option.map_none, if_pos hle2]
        rw [List.getElem?_append_right (by omega)]
        have harith : target - (idx + countAttachments c) =
            target - idx -
              (preorderLeaves c
                (if p = "" then toString pos else p ++ "." ++ toString pos)).length := by
          omega
        rw [harith]
        rfl
    · have hle2 : ¬ idx + countAttachments c ≤ target := by omega
      simp [if_neg hle, if_neg hle2]

end

/-! ## Claim C5 -/

/-- C5 (confirmed): `extractAttachments` assigns attachment indices
0,1,2,... to attachment-classified leaves in pre-order traversal order,
and `findAttachmentPart i` (the part-location step of
`DownloadAttachment(i)`) returns exactly the part path and filename of the
leaf holding index i, returning `none` when i is out of range. -/
theorem c5_preorder_attachment_indexing (t : BodyStructure) :
    ((extractAttachments t 0 "").1).map (fun a => a.index)
        = List.range (countAttachments t) ∧
    (extractAttachments t 0 "").1 = buildAtts (preorderLeaves t "") 0 ∧
    (∀ i : Nat, i < countAttachments t →
      findAttachmentPart t i "" 0 = ((preorderLeaves t "")[i]?).map (mkInfo i)) ∧
    (∀ i : Nat, countAttachments t ≤ i → findAttachmentPart t i "" 0 = none) := by
  have hext := extractAttachments_eq t 0 ""
  have hcnt := countAttachments_eq_length t ""
  refine ⟨?_, ?_, ?_, ?_⟩
  · rw [hext]
    simp only [buildAtts_map_index, hcnt]
    rw [List.range_eq_range']
  · rw [hext]
  · intro i hi
    rw [findAttachmentPart_eq t i "" 0, if_pos (Nat.zero_le i)]
    simp
  · intro i hi
    rw [findAttachmentPart_eq t i "" 0, if_pos (Nat.zero_le i)]
    simp only [Nat.sub_zero]
    have hnone : (preorderLeaves t "")[i]? = none := by
      rw [List.getElem?_eq_none_iff]
      omega
    rw [hnone]
    rfl

theorem c5_witness :
    1 < countAttachments sampleTree ∧
    ((extractAttachments sampleTree 0 "").1).map (fun a => a.index) = [0, 1, 2] ∧
    findAttachmentPart sampleTree 1 "" 0 =
      some { partNums := [4, 2], filename := "pic.png" } ∧
    countAttachments sampleTree ≤ 3 ∧
    findAttachmentPart sampleTree 3 "" 0 = none := by
  have h := c5_preorder_attachment_indexing sampleTree
  refine ⟨by decide, ?_, ?_, by decide, h.2.2.2 3 (by decide)⟩
  · rw [h.1]
    decide
  · rw [h.2.2.1 1 (by decide)]
    decide

/-! ## Claim C10 -/

/-- C10 (confirmed): listing and download stay mutually consistent — the
attachment listing returns exactly `countAttachments t` descriptors with
indices `0..n-1` in order, and locating an attachment part succeeds for
index i exactly when `i < countAttachments t`.  (In the source the three
functions carry textually identical classification logic; the embedding
shares it as `isAttachmentPart`.) -/
theorem c10_listing_download_consistent (t : BodyStructure) :
    (extractAttachments t 0 "").1.length = countAttachments t ∧
    ((extractAttachments t 0 "").1).map (fun a => a.index)
        = List.range (countAttachments t) ∧
    (∀ i : Nat, (findAttachmentPart t i "" 0).isSome = true
        ↔ i < countAttachments t) := by
  have hext := extractAttachments_eq t 0 ""
  have hcnt := countAttachments_eq_length t ""
  refine ⟨?_, ?_, ?_⟩
  · rw [hext]
    simp [buildAtts_length, hcnt]
  · rw [hext]
    simp only [buildAtts_map_index, hcnt]
    rw [List.range_eq_range']
  · intro i
    rw [findAttachmentPart_eq t i "" 0, if_pos (Nat.zero_le i)]
    rw [hcnt]
    simp only [Nat.sub_zero]
    cases hv : (preorderLeaves t "")[i]? with
    | some l =>
      have hin := (List.getElem?_eq_some.mp hv).1
      simp [hin]
    | none =>
      have hlen := List.getElem?_eq_none_iff.mp hv
      simp
      omega

theorem c10_witness :
    (extractAttachments sampleTree2 0 "").1.length = countAttachments sampleTree2 ∧
    ((findAttachmentPart sampleTree2 1 "" 0).isSome = true
      ↔ 1 < countAttachments sampleTree2) ∧
    ((findAttachmentPart sampleTree2 2 "" 0).isSome = true
      ↔ 2 < countAttachments sampleTree2) :=
  ⟨(c10_listing_download_consistent sampleTree2).1,
   (c10_listing_download_consistent sampleTree2).2.2 1,
   (c10_listing_download_consistent sampleTree2).2.2 2⟩

/-! ## Lemmas: substring search -/

theorem matchPre_length_le : ∀ nd l : List Char, matchPre nd l = true → nd.length ≤ l.length
  | [], l, _ => Nat.zero_le _
  | n :: ns, [], h => by simp [matchPre] at h
  | n :: ns, c :: cs, h => by
    simp only [matchPre, Bool.and_eq_true] at h
    have := matchPre_length_le ns cs h.2
    simp only [List.length_cons]
    omega

theorem matchPre_append_of_le : ∀ (nd l t : List Char), nd.length ≤ l.length →
    matchPre nd (l ++ t) = matchPre nd l
  | [], _, _, _ => rfl
  | n :: ns, [], t, h => by simp at h
  | n :: ns, c :: cs, t, h => by
    have ih := matchPre_append_of_le ns cs t (by simp at h; omega)
    show matchPre (n :: ns) (c :: (cs ++ t)) = _
    simp only [matchPre, ih]

theorem matchPre_append_true (nd l t : List Char) (h : matchPre nd l = true) :
    matchPre nd (l ++ t) = true := by
  rw [matchPre_append_of_le nd l t (matchPre_length_le nd l h)]
  exact h

theorem findSub_some_le : ∀ (nd h : List Char) (i : Nat),
    findSub nd h = some i → i + nd.length ≤ h.length
  | nd, [], i => by
    cases nd with
    | nil => intro hf; simp [findSub] at hf; omega
    | cons a as => intro hf; simp [findSub, List.isEmpty] at hf
  | nd, c :: rest, i => by
    intro hf
    by_cases hm : matchPre nd (c :: rest) = true
    · simp only [findSub, if_pos hm, Option.some.injEq] at hf
      subst hf
      simpa using matchPre_length_le nd (c :: rest) hm
    · simp only [findSub, if_neg hm, Option.map_eq_some'] at hf
      rcases hf with ⟨j, hj, hi⟩
      have := findSub_some_le nd rest j hj
      simp only [List.length_cons]
      omega

theorem findSub_append : ∀ (nd h t : List Char) (i : Nat),
    findSub nd h = some i → findSub nd (h ++ t) = some i
  | nd, [], t, i => by
    intro hf
    cases nd with
    | nil =>
      simp [findSub] at hf
      subst hf
      cases t with
      | nil => rfl
      | cons c cs => simp [findSub, matchPre]
    | cons a as => simp [findSub, List.isEmpty] at hf
  | nd, c :: rest, t, i => by
    intro hf
    by_cases hm : matchPre nd (c :: rest) = true
    · simp only [findSub, if_pos hm, Option.some.injEq] at hf
      subst hf
      have := matchPre_append_true nd (c :: rest) t hm
      simp only [List.cons_append] at this ⊢
      simp [findSub, this]
    · simp only [findSub, if_neg hm, Option.map_eq_some'] at hf
      rcases hf with ⟨j, hj, hi⟩
      have hlen : nd.length ≤ (c :: rest).length := by
        have := findSub_some_le nd rest j hj
        simp only [List.length_cons]
        omega
      have hkey : matchPre nd ((c :: rest) ++ t) = false := by
        rw [matchPre_append_of_le nd _ t hlen]
        simpa using hm
      have ih := findSub_append nd rest t j hj
      simp only [List.cons_append] at hkey ⊢
      simp [findSub, hkey, ih, hi]

/-! ## Lemmas: quoted-printable decoding on composed bodies -/

theorem qpLines_single : ∀ l : List Char, (l.all fun c => !(c = '\n')) = true →
    qpLines (l ++ ['\r', '\n']) = [l ++ ['\r', '\n']]
  | [], _ => rfl
  | c :: rest, h => by
    simp only [List.all_cons, Bool.and_eq_true, Bool.not_eq_true'] at h
    have hc : ¬ (c = '\n') := by
      intro hcc; rw [hcc] at h; simp at h
    simp only [List.cons_append, qpLines, if_neg hc, List.append_eq,
      qpLines_single rest h.2]

theorem trimRight_crlf (l : List Char)
    (hl : (l.getLast?.all fun c => !(isQPDiscardWs c)) = true) :
    trimRightWhile (l ++ ['\r', '\n']) isQPDiscardWs = l := by
  unfold trimRightWhile
  rw [List.reverse_append]
  show (List.dropWhile isQPDiscardWs ('\n' :: '\r' :: l.reverse)).reverse = l
  rw [List.dropWhile_cons, if_pos (by decide)]
  rw [List.dropWhile_cons, if_pos (by decide)]
  have hdrop : l.reverse.dropWhile isQPDiscardWs = l.reverse := by
    cases hrev : l.reverse with
    | nil => rfl
    | cons x xs =>
      have hx : l.getLast? = some x := by
        rw [← List.head?_reverse, hrev]
        rfl
      rw [hx] at hl
      simp only [Option.all_some, Bool.not_eq_true'] at hl
      rw [List.dropWhile_cons, if_neg (by simp [hl])]
  rw [hdrop, List.reverse_reverse]

theorem endsWith_single_false (l : List Char) (x : Char)
    (h : (l.all fun c => !(c = x)) = true) : endsWith [x] l = false := by
  unfold endsWith
  cases hrev : l.reverse with
  | nil => rfl
  | cons c cs =>
    have hmem : c ∈ l := by
      have : c ∈ l.reverse := by rw [hrev]; exact List.mem_cons_self c cs
      simpa using this
    have := (List.all_eq_true.mp h) c hmem
    simp only [Bool.not_eq_true'] at this
    simp [matchPre, this]
    intro hcc
    rw [hcc] at this
    simp at this

theorem qpDecodeBytes_no_eq : ∀ l : List Char, (l.all fun c => !(c = '=')) = true →
    qpDecodeBytes l = some l
  | [], _ => rfl
  | c :: rest, h => by
    simp only [List.all_cons, Bool.and_eq_true, Bool.not_eq_true'] at h
    have hc : ¬ (c = '=') := by
      intro hcc; rw [hcc] at h; simp at h
    have ih := qpDecodeBytes_no_eq rest h.2
    unfold qpDecodeBytes
    rw [if_neg hc, ih]
    rfl

theorem qpPrepLine_plain (l : List Char)
    (hnoeq : (l.all fun c => !(c = '=')) = true)
    (hlast : (l.getLast?.all fun c => !(isQPDiscardWs c)) = true) :
    qpPrepLine (l ++ ['\r', '\n']) = some (l ++ ['\r', '\n']) := by
  have htrim := trimRight_crlf l hlast
  have hsoft : endsWith ['='] l = false := endsWith_single_false l '=' hnoeq
  have hlf : endsWith ['\n'] (l ++ ['\r', '\n']) = true := by
    unfold endsWith
    rw [List.reverse_append]
    rfl
  have hcrlf : endsWith ['\r', '\n'] (l ++ ['\r', '\n']) = true := by
    unfold endsWith
    rw [List.reverse_append]
    rfl
  simp only [qpPrepLine]
  rw [htrim]
  simp [hsoft, hlf, hcrlf]

theorem qpDecode_plain (l : List Char)
    (hl : (l.all fun c => !(c = '=') && !(c = '\r') && !(c = '\n')) = true)
    (hlast : (l.getLast?.all fun c => !(isQPDiscardWs c)) = true) :
    qpDecode (l ++ ['\r', '\n']) = some (l ++ ['\r', '\n']) := by
  have hparts : ∀ c ∈ l, ¬ (c = '=') ∧ ¬ (c = '\r') ∧ ¬ (c = '\n') := by
    intro c hc
    have := (List.all_eq_true.mp hl) c hc
    simp only [Bool.and_eq_true, Bool.not_eq_true'] at this
    refine ⟨?_, ?_, ?_⟩ <;> intro hcc <;> rw [hcc] at this <;> simp at this
  have hnoeq : (l.all fun c => !(c = '=')) = true := by
    rw [List.all_eq_true]
    intro c hc
    simp [(hparts c hc).1]
  have hnolf : (l.all fun c => !(c = '\n')) = true := by
    rw [List.all_eq_true]
    intro c hc
    simp [(hparts c hc).2.2]
  have hnoeq2 : ((l ++ ['\r', '\n']).all fun c => !(c = '=')) = true := by
    rw [List.all_append]
    simp [hnoeq]
  unfold qpDecode
  rw [qpLines_single l hnolf]
  simp [qpDecodeAll, qpPrepLine_plain l hnoeq hlast, qpDecodeBytes_no_eq _ hnoeq2]

/-! ## Lemmas: body resolver -/

theorem matchPre_iff_take : ∀ nd l : List Char, matchPre nd l = true ↔ l.take nd.length = nd
  | [], l => by simp [matchPre]
  | n :: ns, [] => by simp [matchPre]
  | n :: ns, c :: cs => by
    simp only [matchPre, Bool.and_eq_true, beq_iff_eq, List.length_cons,
      List.take_succ_cons, List.cons.injEq]
    rw [matchPre_iff_take ns cs]
    constructor
    · rintro ⟨h1, h2⟩
      exact ⟨h1.symm, h2⟩
    · rintro ⟨h1, h2⟩
      exact ⟨h1.symm, h2⟩

theorem plain_not_html (ct : String) (h : goHasPre ct "text/plain" = true) :
    goHasPre ct "text/html" = false := by
  unfold goHasPre at *
  rw [matchPre_iff_take] at h
  by_contra hcon
  rw [Bool.not_eq_false, matchPre_iff_take] at hcon
  have h9 : ct.data.take 9 = ("text/plain".data).take 9 := by
    have : ct.data.take 9 = (ct.data.take ("text/plain".data).length).take 9 := by
      rw [List.take_take]
      rfl
    rw [this, h]
  rw [show ("text/html".data).length = 9 from rfl] at hcon
  rw [hcon] at h9
  exact absurd h9 (by decide)

theorem resolveLoop_eq : ∀ (parts : List MailPart) (t h : String),
    resolveLoop parts t h =
      ((lastReadBody "text/plain" parts).getD t, (lastReadBody "text/html" parts).getD h)
  | [], t, h => rfl
  | p :: rest, t, h => by
    by_cases hp : goHasPre p.contentType "text/plain" = true
    · have hh := plain_not_html _ hp
      rw [resolveLoop, if_pos hp, resolveLoop_eq rest]
      by_cases hr : p.readOk = true <;>
        simp [lastReadBody, hp, hh, hr] <;>
        cases lastReadBody "text/plain" rest <;>
        cases lastReadBody "text/html" rest <;>
        simp
    · by_cases hq : goHasPre p.contentType "text/html" = true
      · rw [resolveLoop, if_neg (by simp [hp]), if_pos hq, resolveLoop_eq rest]
        by_cases hr : p.readOk = true <;>
          simp [lastReadBody, hp, hq, hr] <;>
          cases lastReadBody "text/plain" rest <;>
          cases lastReadBody "text/html" rest <;>
          simp
      · rw [resolveLoop, if_neg (by simp [hp]), if_neg (by simp [hq]), resolveLoop_eq rest]
        simp only [lastReadBody, hp, hq]
        rw [Prod.mk.injEq]
        constructor
        · cases lastReadBody "text/plain" rest <;> simp
        · cases lastReadBody "text/html" rest <;> simp

/-! ## Lemmas: composer attachment loop -/

theorem attachmentLoop_error (fs : String → Option (List Nat))
    (mimeByExt : String → String) (boundary : String) :
    ∀ (paths : List String) (buf : String),
    (paths.any fun p => (fs p).isNone) = true →
    ∃ p, attachmentLoop fs mimeByExt boundary paths buf = Except.error p ∧
      p ∈ paths ∧ fs p = none
  | [], buf => by intro h; simp at h
  | path :: rest, buf => by
    intro h
    cases hp : fs path with
    | none =>
      exact ⟨path, by simp [attachmentLoop, hp], List.mem_cons_self path rest, hp⟩
    | some content =>
      have hrest : (rest.any fun p => (fs p).isNone) = true := by
        simp only [List.any_cons, hp, Option.isNone_some, Bool.false_or] at h
        exact h
      rcases attachmentLoop_error fs mimeByExt boundary rest
        (buf ++ "\r\n--" ++ boundary ++ "\r\n"
          ++ "Content-Disposition: attachment; filename=\"" ++ filepathBase path ++ "\"\r\n"
          ++ "Content-Transfer-Encoding: base64\r\n"
          ++ "Content-Type: "
          ++ (if mimeByExt (filepathExt (filepathBase path)) = ""
              then "application/octet-stream"
              else mimeByExt (filepathExt (filepathBase path))) ++ "\r\n"
          ++ "\r\n"
          ++ String.mk (wrap76 (base64Chunks content).length (base64Chunks content)))
        hrest with ⟨p, hq, hmem, hnone⟩
      refine ⟨p, ?_, List.mem_cons_of_mem path hmem, hnone⟩
      simpa [attachmentLoop, hp] using hq

/-! ## Claim C1 -/

/-- C1 (claim as stated, refuted): the claim says the resolver keeps the
*first* text/plain part as textBody.  On a multipart message with two
text/plain parts carrying "A" and "B", the loop of `parseMessageBody`
overwrites on every match, so the resolver returns "B" — the last part —
not "A". -/
theorem c1_counterexample :
    parseMessageBody "raw"
      (MimeParse.parsed "multipart/mixed; boundary=b"
        [{ contentType := "text/plain; charset=utf-8", body := "A", readOk := true },
         { contentType := "text/plain; charset=utf-8", body := "B", readOk := true }])
      = ("B", "") ∧
    (parseMessageBody "raw"
      (MimeParse.parsed "multipart/mixed; boundary=b"
        [{ contentType := "text/plain; charset=utf-8", body := "A", readOk := true },
         { contentType := "text/plain; charset=utf-8", body := "B", readOk := true }])).1
      ≠ "A" := by
  constructor
  · rfl
  · decide

/-- C1 (amended): for every multipart parse yielding at least one part,
the resolver returns as textBody the body of the *last* text/plain part
whose read succeeded (empty when there is none), and likewise the last
text/html part as htmlBody: each later part of the same type overwrites
the earlier one, and a part whose body read fails leaves the previous
value. -/
theorem c1_last_text_part_wins (raw ct : String) (parts : List MailPart)
    (hne : parts ≠ []) :
    parseMessageBody raw (MimeParse.parsed ct parts)
      = ((lastReadBody "text/plain" parts).getD "",
         (lastReadBody "text/html" parts).getD "") := by
  have hie : parts.isEmpty = false := by
    cases parts with
    | nil => exact absurd rfl hne
    | cons a l => rfl
  show (if parts.isEmpty = true then manualSplit raw ct else resolveLoop parts "" "") = _
  rw [hie]
  simp only [Bool.false_eq_true, if_false]
  exact resolveLoop_eq parts "" ""

theorem c1_witness :
    (([{ contentType := "text/plain; charset=utf-8", body := "A", readOk := true },
       { contentType := "text/html; charset=utf-8", body := "<p>h1</p>", readOk := true },
       { contentType := "text/plain; charset=utf-8", body := "B", readOk := true },
       { contentType := "text/plain; charset=utf-8", body := "C", readOk := false },
       { contentType := "text/html; charset=utf-8", body := "<p>h2</p>", readOk := true }]
      : List MailPart) ≠ []) ∧
    parseMessageBody "raw"
      (MimeParse.parsed "multipart/alternative"
        [{ contentType := "text/plain; charset=utf-8", body := "A", readOk := true },
         { contentType := "text/html; charset=utf-8", body := "<p>h1</p>", readOk := true },
         { contentType := "text/plain; charset=utf-8", body := "B", readOk := true },
         { contentType := "text/plain; charset=utf-8", body := "C", readOk := false },
         { contentType := "text/html; charset=utf-8", body := "<p>h2</p>", readOk := true }])
      = ("B", "<p>h2</p>") := by
  refine ⟨by decide, ?_⟩
  rw [c1_last_text_part_wins "raw" "multipart/alternative" _ (by decide)]
  decide

/-! ## Claim C2 -/

/-- C2 (claim as stated, refuted): the claim says that when an attachment
cannot be opened, no partial message bytes are ever handed to the DATA
stream.  On a message whose single attachment path does not open, `Send`
fails with the attachment error, yet the message headers — including the
multipart Content-Type line and the blank line — have already been written
to the DATA stream: the bytes handed over are nonempty. -/
theorem c2_counterexample :
    (Send msgBadAttachment date0 "BOUND" emptyFs noMime).result
      = some (SmtpError.attachmentOpen "/nonexistent/file.pdf") ∧
    (Send msgBadAttachment date0 "BOUND" emptyFs noMime).dataBytes ≠ "" ∧
    (Send msgBadAttachment date0 "BOUND" emptyFs noMime).dataBytes
      = "From: sender@example.com\r\nTo: recipient@example.com\r\nSubject: Test\r\nDate: Mon, 01 Jan 2024 00:00:00 +0000\r\nMIME-Version: 1.0\r\nContent-Type: multipart/mixed; boundary=BOUND\r\n\r\n" := by
  refine ⟨rfl, by decide, by decide⟩

/-- C2 (amended): when any attachment path cannot be opened, the send does
fail with an attachment error naming such a path, and none of the buffered
multipart body (text part or attachment parts) reaches the DATA stream —
but the message headers, the multipart Content-Type line and the blank
line have already been written to the stream before the failure. -/
theorem c2_headers_reach_data_stream (msg : OutgoingMessage)
    (date boundary : String) (fs : String → Option (List Nat))
    (mimeByExt : String → String)
    (hbad : (msg.attachments.any fun p => (fs p).isNone) = true) :
    ∃ p, p ∈ msg.attachments ∧ fs p = none ∧
      Send msg date boundary fs mimeByExt =
        { dataBytes := messageHeaderLines msg date
            ++ "Content-Type: multipart/mixed; boundary=" ++ boundary ++ "\r\n"
            ++ "\r\n",
          result := some (SmtpError.attachmentOpen p) } := by
  have hne : msg.attachments.isEmpty = false := by
    cases hm : msg.attachments with
    | nil => rw [hm] at hbad; simp at hbad
    | cons a l => rfl
  rcases attachmentLoop_error fs mimeByExt boundary msg.attachments
      ("--" ++ boundary ++ "\r\n"
        ++ "Content-Transfer-Encoding: quoted-printable\r\n"
        ++ "Content-Type: text/plain; charset=utf-8\r\n"
        ++ "\r\n" ++ msg.body) hbad with ⟨p, hq, hmem, hnone⟩
  refine ⟨p, hmem, hnone, ?_⟩
  unfold Send writeMessage
  rw [hne]
  simp only [Bool.false_eq_true, if_false]
  rw [hq]

theorem c2_witness :
    ((msgBadAttachment.attachments.any fun p => (emptyFs p).isNone) = true) ∧
    (∃ p, p ∈ msgBadAttachment.attachments ∧ emptyFs p = none ∧
      Send msgBadAttachment date0 "BOUND" emptyFs noMime =
        { dataBytes := messageHeaderLines msgBadAttachment date0
            ++ "Content-Type: multipart/mixed; boundary=" ++ "BOUND" ++ "\r\n"
            ++ "\r\n",
          result := some (SmtpError.attachmentOpen p) }) :=
  ⟨by decide,
   c2_headers_reach_data_stream msgBadAttachment date0 "BOUND" emptyFs noMime
     (by decide)⟩

/-! ## Claim C6 -/

/-- C6 (claim as stated, refuted): the claim says composing an
attachment-free ASCII message and resolving the composed bytes recovers
the body verbatim.  For body "Hello" the composer writes the body followed
by CRLF into the stream (part_003:472), and the resolver returns that
trailing CRLF as part of textBody: the round trip yields "Hello\r\n",
not "Hello". -/
theorem c6_counterexample :
    (writeMessage (plainMsg "Hello") date0 "B" emptyFs noMime).2 = none ∧
    parseMessageBody (writeMessage (plainMsg "Hello") date0 "B" emptyFs noMime).1
        (goMailParse (writeMessage (plainMsg "Hello") date0 "B" emptyFs noMime).1)
      = ("Hello\r\n", "") ∧
    (parseMessageBody (writeMessage (plainMsg "Hello") date0 "B" emptyFs noMime).1
        (goMailParse (writeMessage (plainMsg "Hello") date0 "B" emptyFs noMime).1)).1
      ≠ "Hello" := by
  refine ⟨rfl, by decide, by decide⟩

/-- C6 (amended): composing an attachment-free message whose body is ASCII
without `=`, CR, LF, or a trailing space or tab, and resolving the composed
bytes back, returns the original body text with one trailing CRLF appended
(the CRLF the composer writes after the body) — both through the mail
reader's single-part path and through the resolver's manual-split fallback. -/
theorem c6_roundtrip_appends_crlf (b : String)
    (hchars : (b.data.all fun c =>
      decide (c.toNat < 128) && !(c = '=') && !(c = '\r') && !(c = '\n')) = true)
    (hlast : (b.data.getLast?.all fun c => !(isQPDiscardWs c)) = true) :
    parseMessageBody (writeMessage (plainMsg b) date0 "B" emptyFs noMime).1
        (goMailParse (writeMessage (plainMsg b) date0 "B" emptyFs noMime).1)
      = (b ++ "\r\n", "") ∧
    manualSplit (writeMessage (plainMsg b) date0 "B" emptyFs noMime).1
        "text/plain; charset=utf-8"
      = (b ++ "\r\n", "") := by
  have hl : (b.data.all fun c => !(c = '=') && !(c = '\r') && !(c = '\n')) = true := by
    rw [List.all_eq_true] at hchars ⊢
    intro c hc
    have := hchars c hc
    simp only [Bool.and_eq_true] at this ⊢
    exact ⟨⟨this.1.1.2, this.1.2⟩, this.2⟩
  have hqp := qpDecode_plain b.data hl hlast
  have hcomp : (writeMessage (plainMsg b) date0 "B" emptyFs noMime).1
      = plainHdr ++ b ++ "\r\n" := rfl
  have hdata : (plainHdr ++ b ++ "\r\n").data
      = plainHdr.data ++ (b.data ++ ['\r', '\n']) := by
    cases b
    simp [String.data_append]
  have hfind : findSub "\r\n\r\n".data ((plainHdr ++ b ++ "\r\n").data)
      = some plainHdrHead.data.length := by
    rw [hdata]
    exact findSub_append _ _ _ _ (by decide)
  have hmkb : String.mk (b.data ++ ['\r', '\n']) = b ++ "\r\n" := by
    cases b
    rfl
  have hbody : (plainHdr ++ b ++ "\r\n").data.drop (plainHdrHead.data.length + 4)
      = b.data ++ ['\r', '\n'] := by
    rw [hdata]
    rw [show plainHdrHead.data.length + 4 = plainHdr.data.length from by decide]
    exact List.drop_left plainHdr.data (b.data ++ ['\r', '\n'])
  have hhdr : (plainHdr ++ b ++ "\r\n").data.take plainHdrHead.data.length
      = plainHdrHead.data := by
    rw [hdata]
    rw [List.take_append_of_le_length (by decide)]
    decide
  have hsplit : headerBodySplit (plainHdr ++ b ++ "\r\n")
      = some (plainHdrHead, b ++ "\r\n") := by
    unfold headerBodySplit
    rw [hfind]
    show some (String.mk ((plainHdr ++ b ++ "\r\n").data.take plainHdrHead.data.length),
      String.mk ((plainHdr ++ b ++ "\r\n").data.drop (plainHdrHead.data.length + 4))) = _
    rw [hhdr, hbody, hmkb]
  have hparse : goMailParse (plainHdr ++ b ++ "\r\n")
      = MimeParse.parsed "text/plain; charset=utf-8"
          [{ contentType := "text/plain; charset=utf-8",
             body := b ++ "\r\n", readOk := true }] := by
    unfold goMailParse
    simp only [hsplit]
    rw [show headerGet plainHdrHead "Content-Type" = "text/plain; charset=utf-8"
      from by decide]
    rw [show goHasPre "text/plain; charset=utf-8" "multipart/" = false from by decide]
    simp only [Bool.false_eq_true, if_false]
    rw [show headerGet plainHdrHead "Content-Transfer-Encoding" = "quoted-printable"
      from by decide]
    unfold decodeTransfer
    rw [if_pos rfl]
    have hbd : (b ++ "\r\n").data = b.data ++ ['\r', '\n'] := by
      cases b
      simp [String.data_append]
    rw [hbd, hqp]
    simp only [hmkb]
  constructor
  · rw [hcomp, hparse]
    have hplain : goHasPre "text/plain; charset=utf-8" "text/plain" = true := by decide
    show resolveLoop _ "" "" = _
    simp only [resolveLoop, hplain, if_true]
  · rw [hcomp]
    unfold manualSplit goStringsIndex
    rw [hfind]
    rw [show goHasPre "text/plain; charset=utf-8" "text/html" = false from by decide]
    simp only [Bool.false_eq_true, if_false]
    rw [hbody, hmkb]

theorem c6_witness :
    (("Hello".data.all fun c =>
      decide (c.toNat < 128) && !(c = '=') && !(c = '\r') && !(c = '\n')) = true) ∧
    (("Hello".data.getLast?.all fun c => !(isQPDiscardWs c)) = true) ∧
    parseMessageBody (writeMessage (plainMsg "Hello") date0 "B" emptyFs noMime).1
        (goMailParse (writeMessage (plainMsg "Hello") date0 "B" emptyFs noMime).1)
      = ("Hello" ++ "\r\n", "") :=
  ⟨by decide, by decide,
   (c6_roundtrip_appends_crlf "Hello" (by decide) (by decide)).1⟩

/-! ## Lemmas: converter identity on normalised text -/

theorem noChar_cons (x c : Char) (rest : List Char) (h : noChar x (c :: rest) = true) :
    ¬ (c = x) ∧ noChar x rest = true := by
  simp only [noChar, List.all_cons, Bool.and_eq_true, bne_iff_ne, ne_eq] at h
  exact ⟨h.1, by simp [noChar, h.2]⟩

theorem noDoubleSpace_tail (a : Char) (l : List Char)
    (h : noDoubleSpace (a :: l) = true) : noDoubleSpace l = true := by
  cases l with
  | nil => rfl
  | cons b t =>
    simp only [noDoubleSpace, Bool.and_eq_true] at h
    exact h.2

theorem noTripleNl_tail (a : Char) (l : List Char)
    (h : noTripleNl (a :: l) = true) : noTripleNl l = true := by
  cases l with
  | nil => rfl
  | cons b t =>
    cases t with
    | nil => rfl
    | cons c t2 =>
      simp only [noTripleNl, Bool.and_eq_true] at h
      exact h.2

theorem stripBlocks_id (tag close : List Char) : ∀ (fuel : Nat) (s : List Char),
    noChar '<' s = true → s.length ≤ fuel → stripBlocks tag close fuel s = s
  | fuel, [] => by intro _ _; cases fuel <;> rfl
  | 0, c :: rest => by intro _ hlen; simp at hlen
  | fuel + 1, c :: rest => by
    intro hno hlen
    have hc := noChar_cons '<' c rest hno
    show (if (c = '<' && matchPreCI tag rest) = true then _ else
      c :: stripBlocks tag close fuel rest) = c :: rest
    rw [if_neg (by simp [hc.1])]
    rw [stripBlocks_id tag close fuel rest hc.2 (by simpa using hlen)]

theorem blockClosePass_id : ∀ (fuel : Nat) (s : List Char),
    noChar '<' s = true → s.length ≤ fuel → blockClosePass fuel s = s
  | fuel, [] => by intro _ _; cases fuel <;> rfl
  | 0, c :: rest => by intro _ hlen; simp at hlen
  | fuel + 1, c :: rest => by
    intro hno hlen
    have hc := noChar_cons '<' c rest hno
    show (if c = '<' then _ else c :: blockClosePass fuel rest) = c :: rest
    rw [if_neg hc.1]
    rw [blockClosePass_id fuel rest hc.2 (by simpa using hlen)]

theorem brPass_id : ∀ (fuel : Nat) (s : List Char),
    noChar '<' s = true → s.length ≤ fuel → brPass fuel s = s
  | fuel, [] => by intro _ _; cases fuel <;> rfl
  | 0, c :: rest => by intro _ hlen; simp at hlen
  | fuel + 1, c :: rest => by
    intro hno hlen
    have hc := noChar_cons '<' c rest hno
    show (if (c = '<' && matchPreCI ['b', 'r'] rest) = true then _ else
      c :: brPass fuel rest) = c :: rest
    rw [if_neg (by simp [hc.1])]
    rw [brPass_id fuel rest hc.2 (by simpa using hlen)]

theorem linkPass_id : ∀ (fuel : Nat) (s : List Char),
    noChar '<' s = true → s.length ≤ fuel → linkPass fuel s = s
  | fuel, [] => by intro _ _; cases fuel <;> rfl
  | 0, c :: rest => by intro _ hlen; simp at hlen
  | fuel + 1, c :: rest => by
    intro hno hlen
    have hc := noChar_cons '<' c rest hno
    show (if (c = '<' && matchPreCI ['a'] rest) = true then _ else
      c :: linkPass fuel rest) = c :: rest
    rw [if_neg (by simp [hc.1])]
    rw [linkPass_id fuel rest hc.2 (by simpa using hlen)]

theorem tagStripPass_id : ∀ (fuel : Nat) (s : List Char),
    noChar '<' s = true → s.length ≤ fuel → tagStripPass fuel s = s
  | fuel, [] => by intro _ _; cases fuel <;> rfl
  | 0, c :: rest => by intro _ hlen; simp at hlen
  | fuel + 1, c :: rest => by
    intro hno hlen
    have hc := noChar_cons '<' c rest hno
    show (if c = '<' then _ else c :: tagStripPass fuel rest) = c :: rest
    rw [if_neg hc.1]
    rw [tagStripPass_id fuel rest hc.2 (by simpa using hlen)]

theorem unescapePass_id : ∀ (fuel : Nat) (s : List Char),
    noChar '&' s = true → s.length ≤ fuel → unescapePass fuel s = s
  | fuel, [] => by intro _ _; cases fuel <;> rfl
  | 0, c :: rest => by intro _ hlen; simp at hlen
  | fuel + 1, c :: rest => by
    intro hno hlen
    have hc := noChar_cons '&' c rest hno
    show (if c = '&' then _ else c :: unescapePass fuel rest) = c :: rest
    rw [if_neg hc.1]
    rw [unescapePass_id fuel rest hc.2 (by simpa using hlen)]

theorem collapseSpaces_id : ∀ (fuel : Nat) (s : List Char),
    noChar '\t' s = true → noDoubleSpace s = true → s.length ≤ fuel →
    collapseSpaces fuel s = s
  | fuel, [] => by intro _ _ _; cases fuel <;> rfl
  | 0, c :: rest => by intro _ _ hlen; simp at hlen
  | fuel + 1, c :: rest => by
    intro hnt hnd hlen
    have hct := noChar_cons '\t' c rest hnt
    have ih := collapseSpaces_id fuel rest hct.2 (noDoubleSpace_tail c rest hnd)
      (by simpa using hlen)
    by_cases hsp : (c = ' ' || c = '\t') = true
    · have hc : c = ' ' := by
        rcases Bool.or_eq_true .. |>.mp hsp with h1 | h1
        · exact of_decide_eq_true h1
        · exact absurd (of_decide_eq_true h1) hct.1
      subst hc
      show ' ' :: collapseSpaces fuel
        (rest.dropWhile (fun x => x = ' ' || x = '\t')) = ' ' :: rest
      have hrest : rest.dropWhile (fun x => x = ' ' || x = '\t') = rest := by
        cases rest with
        | nil => rfl
        | cons b t =>
          simp only [noDoubleSpace, Bool.and_eq_true, Bool.not_eq_true'] at hnd
          rw [List.dropWhile_cons, if_neg]
          simp only [Bool.and_eq_false_iff] at hnd
          rcases hnd.1 with h1 | h1
          · simp at h1
          · simp [h1]
      rw [hrest, ih]
    · show (if (c = ' ' || c = '\t') = true then _ else
        c :: collapseSpaces fuel rest) = c :: rest
      rw [if_neg hsp, ih]

theorem collapseNewlines_id : ∀ (fuel : Nat) (s : List Char),
    noTripleNl s = true → s.length ≤ fuel → collapseNewlines fuel s = s
  | fuel, [] => by intro _ _; cases fuel <;> rfl
  | 0, c :: rest => by intro _ hlen; simp at hlen
  | fuel + 1, c :: rest => by
    intro hnt hlen
    have ih := collapseNewlines_id fuel rest (noTripleNl_tail c rest hnt)
      (by simpa using hlen)
    by_cases hc : c = '\n'
    · subst hc
      have hrun : (rest.takeWhile (fun x => x = '\n')).length ≤ 1 := by
        cases rest with
        | nil => simp [List.takeWhile]
        | cons b t =>
          by_cases hb : b = '\n'
          · subst hb
            cases t with
            | nil => simp [List.takeWhile]
            | cons d t2 =>
              by_cases hd : d = '\n'
              · subst hd
                simp [noTripleNl] at hnt
              · rw [List.takeWhile_cons, if_pos (by simp)]
                rw [List.takeWhile_cons, if_neg (by simp [hd])]
                simp
          · rw [List.takeWhile_cons, if_neg (by simp [hb])]
            simp
      show (if 3 ≤ (rest.takeWhile (fun x => x = '\n')).length + 1 then _ else
        '\n' :: collapseNewlines fuel rest) = '\n' :: rest
      rw [if_neg (by omega), ih]
    · show (if c = '\n' then _ else c :: collapseNewlines fuel rest) = c :: rest
      rw [if_neg hc, ih]

theorem trimSpace_id (s : List Char) (h : trimmedB s = true) : trimSpace s = s := by
  simp only [trimmedB, Bool.and_eq_true] at h
  unfold trimSpace
  have h1 : s.dropWhile isGoSpace = s := by
    cases s with
    | nil => rfl
    | cons c t =>
      have := h.1
      simp only [List.head?_cons, Option.all_some, Bool.not_eq_true'] at this
      rw [List.dropWhile_cons, if_neg (by simp [this])]
  rw [h1]
  have h2 : s.reverse.dropWhile isGoSpace = s.reverse := by
    cases hrev : s.reverse with
    | nil => rfl
    | cons c t =>
      have hx : s.getLast? = some c := by
        rw [← List.head?_reverse, hrev]
        rfl
      have := h.2
      rw [hx] at this
      simp only [Option.all_some, Bool.not_eq_true'] at this
      rw [List.dropWhile_cons, if_neg (by simp [this])]
  rw [h2, List.reverse_reverse]

theorem htmlToText_id_on_normal (y : String) (hy : normalText y.data = true) :
    htmlToText y = y := by
  simp only [normalText, Bool.and_eq_true] at hy
  obtain ⟨⟨⟨⟨⟨hlt, hamp⟩, htab⟩, hdbl⟩, htri⟩, htrim⟩ := hy
  simp only [htmlToText]
  rw [stripBlocks_id _ _ _ _ hlt le_rfl]
  rw [stripBlocks_id _ _ _ _ hlt le_rfl]
  rw [blockClosePass_id _ _ hlt le_rfl]
  rw [brPass_id _ _ hlt le_rfl]
  rw [linkPass_id _ _ hlt le_rfl]
  rw [tagStripPass_id _ _ hlt le_rfl]
  rw [unescapePass_id _ _ hamp le_rfl]
  rw [collapseSpaces_id _ _ htab hdbl le_rfl]
  rw [collapseNewlines_id _ _ htri le_rfl]
  rw [trimSpace_id _ htrim]

/-! Automatic normalisation of the converter's whitespace passes: the
pipeline's own output carries no tab, no doubled space-or-tab, no triple
newline, and no surrounding whitespace, so only the absence of `<` and `&`
remains a genuine hypothesis for idempotence. -/

theorem noChar_of_sublist (x : Char) {l t : List Char} (hs : List.Sublist l t)
    (h : noChar x t = true) : noChar x l = true := by
  simp only [noChar, List.all_eq_true] at h ⊢
  exact fun a ha => h a (hs.subset ha)

theorem noChar_reverse (x : Char) (l : List Char) :
    noChar x l.reverse = noChar x l := by
  simp [noChar, List.all_reverse]

theorem noDbl_iff_chain : ∀ l : List Char, noDoubleSpace l = true ↔
    l.Chain' (fun a b => ¬((a = ' ' ∨ a = '\t') ∧ (b = ' ' ∨ b = '\t')))
  | [] => by simp [noDoubleSpace, List.chain'_nil]
  | [a] => by simp [noDoubleSpace, List.chain'_singleton]
  | a :: b :: rest => by
    rw [List.chain'_cons, ← noDbl_iff_chain (b :: rest)]
    simp only [noDoubleSpace, Bool.and_eq_true, Bool.not_eq_true',
      Bool.and_eq_false_iff, Bool.or_eq_false_iff]
    constructor
    · rintro ⟨h1, h2⟩
      refine ⟨?_, h2⟩
      rintro ⟨ha, hb⟩
      rcases h1 with h1 | h1
      · rcases ha with ha | ha <;> simp [ha] at h1
      · rcases hb with hb | hb <;> simp [hb] at h1
    · rintro ⟨h1, h2⟩
      refine ⟨?_, h2⟩
      by_cases ha : a = ' ' ∨ a = '\t'
      · right
        by_cases hb : b = ' ' ∨ b = '\t'
        · exact absurd ⟨ha, hb⟩ h1
        · push_neg at hb
          constructor <;> simp [hb.1, hb.2]
      · left
        push_neg at ha
        constructor <;> simp [ha.1, ha.2]

theorem noDbl_of_suffix {l t : List Char} (hs : l <:+ t)
    (h : noDoubleSpace t = true) : noDoubleSpace l = true :=
  (noDbl_iff_chain l).2 (((noDbl_iff_chain t).1 h).suffix hs)

theorem noDbl_reverse (l : List Char) :
    noDoubleSpace l.reverse = true ↔ noDoubleSpace l = true := by
  rw [noDbl_iff_chain, noDbl_iff_chain, List.chain'_reverse]
  constructor
  · exact fun h => h.imp (fun a b hab => by rw [flip] at hab; tauto)
  · exact fun h => h.imp (fun a b hab => by rw [flip]; tauto)

theorem noTri_iff_not_sub3 : ∀ l : List Char,
    noTripleNl l = true ↔ ¬ (['\n', '\n', '\n'] <:+: l)
  | [] => by
    simp only [noTripleNl, true_iff]
    intro h
    simpa using h.length_le
  | [a] => by
    simp only [noTripleNl, true_iff]
    intro h
    simpa using h.length_le
  | [a, b] => by
    simp only [noTripleNl, true_iff]
    intro h
    simpa using h.length_le
  | a :: b :: c :: rest => by
    have hpre : (['\n', '\n', '\n'] <+: a :: b :: c :: rest) ↔
        (a = '\n' ∧ b = '\n' ∧ c = '\n') := by
      rw [List.cons_prefix_cons, List.cons_prefix_cons, List.cons_prefix_cons]
      constructor
      · rintro ⟨h1, h2, h3, _⟩
        exact ⟨h1.symm, h2.symm, h3.symm⟩
      · rintro ⟨h1, h2, h3⟩
        exact ⟨h1.symm, h2.symm, h3.symm, List.nil_prefix⟩
    rw [ List.infix_cons_iff, hpre, not_or, ← noTri_iff_not_sub3 (b :: c :: rest)]
    simp only [noTripleNl, Bool.and_eq_true, Bool.not_eq_true',
      Bool.and_eq_false_iff]
    constructor
    · rintro ⟨h1, h2⟩
      refine ⟨?_, h2⟩
      rintro ⟨ha, hb, hc⟩
      rcases h1 with h | h
      · rcases h with h | h
        · simp [ha] at h
        · simp [hb] at h
      · simp [hc] at h
    · rintro ⟨h1, h2⟩
      refine ⟨?_, h2⟩
      by_cases ha : a = '\n'
      · by_cases hb : b = '\n'
        · by_cases hc : c = '\n'
          · exact absurd ⟨ha, hb, hc⟩ h1
          · right; simp [hc]
        · left; right; simp [hb]
      · left; left; simp [ha]

theorem noTri_of_suffix {l t : List Char} (hs : l <:+ t)
    (h : noTripleNl t = true) : noTripleNl l = true := by
  rw [noTri_iff_not_sub3] at h ⊢
  exact fun hi => h (hi.trans hs.isInfix)

theorem noTri_reverse (l : List Char) :
    noTripleNl l.reverse = true ↔ noTripleNl l = true := by
  rw [noTri_iff_not_sub3, noTri_iff_not_sub3]
  have h3 : (['\n', '\n', '\n'] : List Char) =
      (['\n', '\n', '\n'] : List Char).reverse := rfl
  constructor
  · intro h hi
    exact h (by rw [h3, List.reverse_infix]; exact hi)
  · intro h hi
    rw [h3, List.reverse_infix] at hi
    exact h hi

theorem noDbl_cons_notsp (a : Char) (l : List Char)
    (ha : (a = ' ' || a = '\t') = false) (h : noDoubleSpace l = true) :
    noDoubleSpace (a :: l) = true := by
  cases l with
  | nil => rfl
  | cons b t =>
    simp only [noDoubleSpace, ha, Bool.false_and, Bool.not_false, Bool.true_and]
    exact h

theorem noTri_cons_notnl (a : Char) (l : List Char) (ha : a ≠ '\n')
    (h : noTripleNl l = true) : noTripleNl (a :: l) = true := by
  cases l with
  | nil => rfl
  | cons b t =>
    cases t with
    | nil => rfl
    | cons c t2 =>
      simpa [noTripleNl, ha] using h

theorem noTri_cons2 (a b : Char) (l : List Char) (hb : b ≠ '\n')
    (h : noTripleNl (b :: l) = true) : noTripleNl (a :: b :: l) = true := by
  cases l with
  | nil => rfl
  | cons c t =>
    simpa [noTripleNl, hb] using h

theorem noTri_cons3 (a b c : Char) (l : List Char) (hc : c ≠ '\n')
    (h : noTripleNl (b :: c :: l) = true) :
    noTripleNl (a :: b :: c :: l) = true := by
  simpa [noTripleNl, hc] using h

theorem collapseNewlines_head : ∀ (fuel : Nat) (s : List Char),
    (collapseNewlines fuel s).head? = s.head?
  | fuel, [] => by cases fuel <;> rfl
  | 0, c :: rest => rfl
  | fuel + 1, c :: rest => by
    show (if c = '\n' then
      if 3 ≤ (rest.takeWhile (fun x => x = '\n')).length + 1 then
        '\n' :: '\n' :: collapseNewlines fuel
          (rest.drop (rest.takeWhile (fun x => x = '\n')).length)
      else c :: collapseNewlines fuel rest
      else c :: collapseNewlines fuel rest).head? = (c :: rest).head?
    by_cases hc : c = '\n'
    · subst hc
      rw [if_pos rfl]
      by_cases h3 : 3 ≤ (rest.takeWhile (fun x => x = '\n')).length + 1
      · rw [if_pos h3]; rfl
      · rw [if_neg h3]; rfl
    · rw [if_neg hc]; rfl

theorem drop_length_takeWhile (p : Char → Bool) : ∀ l : List Char,
    l.drop (l.takeWhile p).length = l.dropWhile p
  | [] => rfl
  | c :: t => by
    rw [List.takeWhile_cons, List.dropWhile_cons]
    by_cases hp : p c = true
    · rw [if_pos hp, if_pos hp]
      simp only [List.length_cons, List.drop_succ_cons]
      exact drop_length_takeWhile p t
    · rw [if_neg hp, if_neg hp]
      rfl

theorem collapseSpaces_noTab : ∀ (fuel : Nat) (s : List Char),
    s.length ≤ fuel → noChar '\t' (collapseSpaces fuel s) = true
  | fuel, [] => by intro _; cases fuel <;> rfl
  | 0, c :: rest => by intro hlen; simp at hlen
  | fuel + 1, c :: rest => by
    intro hlen
    have hr : rest.length ≤ fuel := by simpa using hlen
    by_cases hsp : (c = ' ' || c = '\t') = true
    · show noChar '\t'
        (if (c = ' ' || c = '\t') = true then
          ' ' :: collapseSpaces fuel (rest.dropWhile (fun x => x = ' ' || x = '\t'))
        else c :: collapseSpaces fuel rest) = true
      rw [if_pos hsp]
      have hlen2 : (rest.dropWhile (fun x => x = ' ' || x = '\t')).length ≤ fuel :=
        le_trans (List.dropWhile_sublist _).length_le hr
      have ih := collapseSpaces_noTab fuel _ hlen2
      simp only [noChar, List.all_cons, Bool.and_eq_true]
      exact ⟨by decide, ih⟩
    · show noChar '\t'
        (if (c = ' ' || c = '\t') = true then
          ' ' :: collapseSpaces fuel (rest.dropWhile (fun x => x = ' ' || x = '\t'))
        else c :: collapseSpaces fuel rest) = true
      rw [if_neg hsp]
      have ih := collapseSpaces_noTab fuel rest hr
      have hct : (c != '\t') = true := by
        simp only [Bool.or_eq_true, decide_eq_true_eq] at hsp
        push_neg at hsp
        simp [hsp.2]
      simp only [noChar, List.all_cons, Bool.and_eq_true]
      exact ⟨hct, ih⟩

theorem collapseSpaces_noDbl : ∀ (fuel : Nat) (s : List Char),
    s.length ≤ fuel → noDoubleSpace (collapseSpaces fuel s) = true
  | fuel, [] => by intro _; cases fuel <;> rfl
  | 0, c :: rest => by intro hlen; simp at hlen
  | fuel + 1, c :: rest => by
    intro hlen
    have hr : rest.length ≤ fuel := by simpa using hlen
    by_cases hsp : (c = ' ' || c = '\t') = true
    · show noDoubleSpace
        (if (c = ' ' || c = '\t') = true then
          ' ' :: collapseSpaces fuel (rest.dropWhile (fun x => x = ' ' || x = '\t'))
        else c :: collapseSpaces fuel rest) = true
      rw [if_pos hsp]
      have hlen2 : (rest.dropWhile (fun x => x = ' ' || x = '\t')).length ≤ fuel :=
        le_trans (List.dropWhile_sublist _).length_le hr
      have ih := collapseSpaces_noDbl fuel _ hlen2
      cases hdw : rest.dropWhile (fun x => x = ' ' || x = '\t') with
      | nil =>
        cases fuel <;> rfl
      | cons d r2 =>
        have hd : (d = ' ' || d = '\t') = false := by
          have hfact := List.head?_dropWhile_not (fun x => x = ' ' || x = '\t') rest
          rw [hdw] at hfact
          simpa using hfact
        rw [hdw] at ih hlen2
        obtain ⟨f2, rfl⟩ : ∃ f2, fuel = f2 + 1 := by
          refine ⟨fuel - 1, ?_⟩
          have h1 : 1 ≤ fuel := le_trans (by simp) hlen2
          omega
        have hstep : collapseSpaces (f2 + 1) (d :: r2) =
            d :: collapseSpaces f2 r2 := by
          show (if (d = ' ' || d = '\t') = true then
            ' ' :: collapseSpaces f2 (r2.dropWhile (fun x => x = ' ' || x = '\t'))
            else d :: collapseSpaces f2 r2) = d :: collapseSpaces f2 r2
          rw [if_neg (by simp [hd])]
        rw [hstep] at ih ⊢
        simp only [noDoubleSpace, hd, Bool.and_false, Bool.not_false, Bool.true_and]
        exact ih
    · show noDoubleSpace
        (if (c = ' ' || c = '\t') = true then
          ' ' :: collapseSpaces fuel (rest.dropWhile (fun x => x = ' ' || x = '\t'))
        else c :: collapseSpaces fuel rest) = true
      rw [if_neg hsp]
      have ih := collapseSpaces_noDbl fuel rest hr
      exact noDbl_cons_notsp c _ (by simpa using hsp) ih

theorem collapseNewlines_noChar (x : Char) (hx : x ≠ '\n') :
    ∀ (fuel : Nat) (s : List Char),
    noChar x s = true → noChar x (collapseNewlines fuel s) = true
  | fuel, [] => by intro _; cases fuel <;> rfl
  | 0, c :: rest => by intro h; exact h
  | fuel + 1, c :: rest => by
    intro h
    have hc : (c != x) = true := by
      simp only [noChar, List.all_cons, Bool.and_eq_true] at h
      exact h.1
    have ht : noChar x rest = true := by
      simp only [noChar, List.all_cons, Bool.and_eq_true] at h
      simpa [noChar] using h.2
    show noChar x
      (if c = '\n' then
        if 3 ≤ (rest.takeWhile (fun x => x = '\n')).length + 1 then
          '\n' :: '\n' :: collapseNewlines fuel
            (rest.drop (rest.takeWhile (fun x => x = '\n')).length)
        else c :: collapseNewlines fuel rest
        else c :: collapseNewlines fuel rest) = true
    by_cases hnl : c = '\n'
    · rw [if_pos hnl]
      by_cases h3 : 3 ≤ (rest.takeWhile (fun x => x = '\n')).length + 1
      · rw [if_pos h3]
        have hdrop : noChar x
            (rest.drop (rest.takeWhile (fun x => x = '\n')).length) = true :=
          noChar_of_sublist x (List.drop_sublist _ _) ht
        have ih := collapseNewlines_noChar x hx fuel _ hdrop
        simp only [noChar, List.all_cons, Bool.and_eq_true]
        refine ⟨by simp [Ne.symm hx], by simp [Ne.symm hx], ?_⟩
        simpa [noChar] using ih
      · rw [if_neg h3]
        have ih := collapseNewlines_noChar x hx fuel rest ht
        simp only [noChar, List.all_cons, Bool.and_eq_true]
        exact ⟨hc, by simpa [noChar] using ih⟩
    · rw [if_neg hnl]
      have ih := collapseNewlines_noChar x hx fuel rest ht
      simp only [noChar, List.all_cons, Bool.and_eq_true]
      exact ⟨hc, by simpa [noChar] using ih⟩

theorem collapseNewlines_noDbl : ∀ (fuel : Nat) (s : List Char),
    noDoubleSpace s = true → noDoubleSpace (collapseNewlines fuel s) = true
  | fuel, [] => by intro _; cases fuel <;> rfl
  | 0, c :: rest => by intro h; exact h
  | fuel + 1, c :: rest => by
    intro h
    show noDoubleSpace
      (if c = '\n' then
        if 3 ≤ (rest.takeWhile (fun x => x = '\n')).length + 1 then
          '\n' :: '\n' :: collapseNewlines fuel
            (rest.drop (rest.takeWhile (fun x => x = '\n')).length)
        else c :: collapseNewlines fuel rest
        else c :: collapseNewlines fuel rest) = true
    have ht : noDoubleSpace rest = true := by
      cases rest with
      | nil => rfl
      | cons b t =>
        simp only [noDoubleSpace, Bool.and_eq_true] at h
        exact h.2
    by_cases hnl : c = '\n'
    · rw [if_pos hnl]
      by_cases h3 : 3 ≤ (rest.takeWhile (fun x => x = '\n')).length + 1
      · rw [if_pos h3]
        have hdrop : noDoubleSpace
            (rest.drop (rest.takeWhile (fun x => x = '\n')).length) = true :=
          noDbl_of_suffix (List.drop_suffix _ _) ht
        have ih := collapseNewlines_noDbl fuel _ hdrop
        exact noDbl_cons_notsp _ _ (by decide) (noDbl_cons_notsp _ _ (by decide) ih)
      · rw [if_neg h3]
        have ih := collapseNewlines_noDbl fuel rest ht
        subst hnl
        exact noDbl_cons_notsp _ _ (by decide) ih
    · rw [if_neg hnl]
      cases rest with
      | nil =>
        cases fuel <;> rfl
      | cons b t =>
        simp only [noDoubleSpace, Bool.and_eq_true] at h
        have ih := collapseNewlines_noDbl fuel (b :: t) h.2
        have hhead := collapseNewlines_head fuel (b :: t)
        cases hout : collapseNewlines fuel (b :: t) with
        | nil => rfl
        | cons d r =>
          rw [hout] at hhead ih
          have hd : d = b := by simpa using hhead
          subst hd
          simp only [noDoubleSpace, Bool.and_eq_true]
          exact ⟨h.1, ih⟩

theorem collapseNewlines_noTri : ∀ (fuel : Nat) (s : List Char),
    s.length ≤ fuel → noTripleNl (collapseNewlines fuel s) = true
  | fuel, [] => by intro _; cases fuel <;> rfl
  | 0, c :: rest => by intro hlen; simp at hlen
  | fuel + 1, c :: rest => by
    intro hlen
    have hr : rest.length ≤ fuel := by simpa using hlen
    show noTripleNl
      (if c = '\n' then
        if 3 ≤ (rest.takeWhile (fun x => x = '\n')).length + 1 then
          '\n' :: '\n' :: collapseNewlines fuel
            (rest.drop (rest.takeWhile (fun x => x = '\n')).length)
        else c :: collapseNewlines fuel rest
        else c :: collapseNewlines fuel rest) = true
    by_cases hnl : c = '\n'
    · rw [if_pos hnl]
      by_cases h3 : 3 ≤ (rest.takeWhile (fun x => x = '\n')).length + 1
      · rw [if_pos h3]
        rw [drop_length_takeWhile]
        have hlen2 : (rest.dropWhile (fun x => x = '\n')).length ≤ fuel :=
          le_trans (List.dropWhile_sublist _).length_le hr
        have ih := collapseNewlines_noTri fuel _ hlen2
        have hhead := collapseNewlines_head fuel
          (rest.dropWhile (fun x => x = '\n'))
        cases hout : collapseNewlines fuel (rest.dropWhile (fun x => x = '\n')) with
        | nil => rfl
        | cons d r =>
          rw [hout] at hhead ih
          have hd : d ≠ '\n' := by
            have hfact := List.head?_dropWhile_not (fun x => x = '\n') rest
            cases hdw : rest.dropWhile (fun x => x = '\n') with
            | nil =>
              rw [hdw] at hhead
              simp at hhead
            | cons e r2 =>
              rw [hdw] at hfact hhead
              have hde : d = e := by simpa using hhead
              rw [hde]
              simpa using hfact
          exact noTri_cons3 '\n' '\n' d r hd (noTri_cons2 '\n' d r hd ih)
      · rw [if_neg h3]
        subst hnl
        cases rest with
        | nil => cases fuel <;> rfl
        | cons b t =>
          by_cases hb : b = '\n'
          · subst hb
            have hrun : (t.takeWhile (fun x => x = '\n')) = [] := by
              by_contra hne
              have hlen3 : 1 ≤ (t.takeWhile (fun x => x = '\n')).length := by
                cases hq : t.takeWhile (fun x => x = '\n') with
                | nil => exact absurd hq hne
                | cons q qs => simp
              apply h3
              rw [List.takeWhile_cons, if_pos (by simp)]
              simp only [List.length_cons]
              omega
            obtain ⟨f2, rfl⟩ : ∃ f2, fuel = f2 + 1 := by
              refine ⟨fuel - 1, ?_⟩
              simp only [List.length_cons] at hlen
              omega
            have hstep : collapseNewlines (f2 + 1) ('\n' :: t) =
                '\n' :: collapseNewlines f2 t := by
              show (if ('\n' : Char) = '\n' then
                if 3 ≤ (t.takeWhile (fun x => x = '\n')).length + 1 then
                  '\n' :: '\n' :: collapseNewlines f2
                    (t.drop (t.takeWhile (fun x => x = '\n')).length)
                else '\n' :: collapseNewlines f2 t
                else '\n' :: collapseNewlines f2 t) = '\n' :: collapseNewlines f2 t
              rw [if_pos rfl, if_neg (by rw [hrun]; simp)]
            rw [hstep]
            cases t with
            | nil =>
              cases f2 <;> rfl
            | cons e t3 =>
              have he : e ≠ '\n' := by
                intro heq
                rw [List.takeWhile_cons, if_pos (by simp [heq])] at hrun
                simp at hrun
              have hlen4 : (e :: t3).length ≤ f2 := by
                simp only [List.length_cons] at hlen ⊢
                omega
              have ih := collapseNewlines_noTri f2 (e :: t3) hlen4
              have hhead := collapseNewlines_head f2 (e :: t3)
              cases hout : collapseNewlines f2 (e :: t3) with
              | nil => rfl
              | cons d r =>
                rw [hout] at hhead ih
                have hd : d = e := by simpa using hhead
                subst hd
                exact noTri_cons3 '\n' '\n' d r he (noTri_cons2 '\n' d r he ih)
          · have ih := collapseNewlines_noTri fuel (b :: t) hr
            have hhead := collapseNewlines_head fuel (b :: t)
            cases hout : collapseNewlines fuel (b :: t) with
            | nil => rfl
            | cons d r =>
              rw [hout] at hhead ih
              have hd : d = b := by simpa using hhead
              subst hd
              exact noTri_cons2 '\n' d r (by simp [hb]) ih
    · rw [if_neg hnl]
      have ih := collapseNewlines_noTri fuel rest hr
      exact noTri_cons_notnl c _ (by simp [hnl]) ih

theorem trimmedB_reverse (l : List Char) : trimmedB l.reverse = trimmedB l := by
  simp only [trimmedB, List.head?_reverse, List.getLast?_reverse]
  exact Bool.and_comm _ _

theorem getLast?_of_suffix {l t : List Char} (hs : l <:+ t) (hne : l ≠ []) :
    l.getLast? = t.getLast? := by
  obtain ⟨pre, rfl⟩ := hs
  rw [List.getLast?_append]
  cases hgl : l.getLast? with
  | none =>
    rw [List.getLast?_eq_none_iff] at hgl
    exact absurd hgl hne
  | some z => rfl

theorem trimmedB_trimSpace (s : List Char) : trimmedB (trimSpace s) = true := by
  unfold trimSpace
  rw [trimmedB_reverse]
  cases hu : (s.dropWhile isGoSpace).reverse.dropWhile isGoSpace with
  | nil => rfl
  | cons a r =>
    have ha : isGoSpace a = false := by
      have hfact := List.head?_dropWhile_not isGoSpace (s.dropWhile isGoSpace).reverse
      rw [hu] at hfact
      simpa using hfact
    have hlast : (a :: r).getLast? = (s.dropWhile isGoSpace).reverse.getLast? := by
      apply getLast?_of_suffix
      · rw [← hu]
        exact List.dropWhile_suffix isGoSpace
      · simp
    rw [List.getLast?_reverse] at hlast
    have hhd : ∀ z, (s.dropWhile isGoSpace).head? = some z → isGoSpace z = false := by
      intro z hz
      have hfact := List.head?_dropWhile_not isGoSpace s
      rw [hz] at hfact
      exact hfact
    simp only [trimmedB, List.head?_cons, Option.all_some, Bool.and_eq_true]
    constructor
    · simp [ha]
    · rw [hlast]
      cases hcase : (s.dropWhile isGoSpace).head? with
      | none => rfl
      | some z => simp [hhd z hcase]

theorem trim_pipeline_normal (s : List Char) :
    noChar '\t' (trimSpace (collapseNewlines (collapseSpaces s.length s).length
        (collapseSpaces s.length s))) = true ∧
    noDoubleSpace (trimSpace (collapseNewlines (collapseSpaces s.length s).length
        (collapseSpaces s.length s))) = true ∧
    noTripleNl (trimSpace (collapseNewlines (collapseSpaces s.length s).length
        (collapseSpaces s.length s))) = true ∧
    trimmedB (trimSpace (collapseNewlines (collapseSpaces s.length s).length
        (collapseSpaces s.length s))) = true := by
  have htab8 : noChar '\t' (collapseSpaces s.length s) = true :=
    collapseSpaces_noTab s.length s le_rfl
  have hdbl8 : noDoubleSpace (collapseSpaces s.length s) = true :=
    collapseSpaces_noDbl s.length s le_rfl
  have htab9 : noChar '\t' (collapseNewlines (collapseSpaces s.length s).length
      (collapseSpaces s.length s)) = true :=
    collapseNewlines_noChar '\t' (by decide) _ _ htab8
  have hdbl9 : noDoubleSpace (collapseNewlines (collapseSpaces s.length s).length
      (collapseSpaces s.length s)) = true :=
    collapseNewlines_noDbl _ _ hdbl8
  have htri9 : noTripleNl (collapseNewlines (collapseSpaces s.length s).length
      (collapseSpaces s.length s)) = true :=
    collapseNewlines_noTri _ _ le_rfl
  refine ⟨?_, ?_, ?_, trimmedB_trimSpace _⟩
  · unfold trimSpace
    rw [noChar_reverse]
    refine noChar_of_sublist _ (List.dropWhile_sublist _) ?_
    rw [noChar_reverse]
    exact noChar_of_sublist _ (List.dropWhile_sublist _) htab9
  · unfold trimSpace
    rw [noDbl_reverse]
    refine noDbl_of_suffix (List.dropWhile_suffix _) ?_
    rw [noDbl_reverse]
    exact noDbl_of_suffix (List.dropWhile_suffix _) hdbl9
  · unfold trimSpace
    rw [noTri_reverse]
    refine noTri_of_suffix (List.dropWhile_suffix _) ?_
    rw [noTri_reverse]
    exact noTri_of_suffix (List.dropWhile_suffix _) htri9

set_option maxHeartbeats 2000000 in
theorem htmlToText_wsnormal (x : String) :
    noChar '\t' (htmlToText x).data = true ∧
    noDoubleSpace (htmlToText x).data = true ∧
    noTripleNl (htmlToText x).data = true ∧
    trimmedB (htmlToText x).data = true := by
  simp only [htmlToText]
  exact trim_pipeline_normal _

theorem htmlToText_normal_of_noMarkup (x : String)
    (h1 : noChar '<' (htmlToText x).data = true)
    (h2 : noChar '&' (htmlToText x).data = true) :
    normalText (htmlToText x).data = true := by
  have H := htmlToText_wsnormal x
  simp only [normalText, Bool.and_eq_true]
  exact ⟨⟨⟨⟨⟨h1, h2⟩, H.1⟩, H.2.1⟩, H.2.2.1⟩, H.2.2.2⟩

/-! ## Claim C7 -/

/-- C7 (claim as stated, refuted): the converter is not idempotent.  On
`"&lt;p&gt;"` the first conversion decodes the entities *after* tag
stripping, yielding `"<p>"`; converting that output again strips it as a
tag, yielding `""`. -/
theorem c7_counterexample :
    htmlToText "&lt;p&gt;" = "<p>" ∧
    htmlToText (htmlToText "&lt;p&gt;") = "" ∧
    htmlToText (htmlToText "&lt;p&gt;") ≠ htmlToText "&lt;p&gt;" := by
  refine ⟨by decide, by decide, by decide⟩

/-- C7 (amended): the converter is idempotent on every input whose
converted output contains no `<` and no `&` (entity decoding, which runs
after tag stripping, is the only pass that can re-create tag-like or
entity-like text).  The whitespace side conditions hold automatically: the
pipeline's own output never carries tabs, doubled spaces, triple newlines
or surrounding whitespace, and each pass is the identity on such
normalised text, so a second conversion changes nothing. -/
theorem c7_idempotent_on_normal_outputs (x : String)
    (h1 : noChar '<' (htmlToText x).data = true)
    (h2 : noChar '&' (htmlToText x).data = true) :
    htmlToText (htmlToText x) = htmlToText x :=
  htmlToText_id_on_normal (htmlToText x) (htmlToText_normal_of_noMarkup x h1 h2)

theorem c7_witness :
    (noChar '<' (htmlToText "<p>Hello there</p>").data = true ∧
      noChar '&' (htmlToText "<p>Hello there</p>").data = true) ∧
    htmlToText (htmlToText "<p>Hello there</p>") = htmlToText "<p>Hello there</p>" :=
  ⟨⟨by decide, by decide⟩,
    c7_idempotent_on_normal_outputs "<p>Hello there</p>" (by decide) (by decide)⟩

/-! ## Claim C8 -/

/-- C8 (claim as stated, refuted): the claimed output has two newlines
between the paragraph text and the link, but the code replaces `</p>` with
a single `\n` and nothing inserts a second one. -/
theorem c8_counterexample :
    htmlToText "<p>Hello &amp; World</p><a href=\"https://x.com\">Link</a>"
      ≠ "Hello & World\n\nLink [https://x.com]" := by decide

/-- C8 (amended): on the input
`<p>Hello &amp; World</p><a href="https://x.com">Link</a>` the converter
returns exactly `Hello & World\nLink [https://x.com]`, with a single
newline where the `</p>` stood. -/
theorem c8_actual_output :
    htmlToText "<p>Hello &amp; World</p><a href=\"https://x.com\">Link</a>"
      = "Hello & World\nLink [https://x.com]" := by decide

/-! ## Claim C9 -/

/-- C9 (claim as stated, refuted): the claim says every size string not of
the form digits + K/M/G[B] contributes no leaf.  `parseSize` scans the
digit prefix with the `Sscanf` error ignored, so the malformed size string
`"12abc"` yields 12 and the built criteria carries a size bound of 12 — a
size leaf is contributed. -/
theorem c9_counterexample :
    parseSize "12abc" = 12 ∧
    (buildSearchCriteria (searchOptsOfFlags flagsSize12abc)).larger = 12 ∧
    (buildSearchCriteria (searchOptsOfFlags flagsSize12abc)).larger ≠ 0 := by
  refine ⟨by decide, by decide, by decide⟩

/-- C9 (amended): an unparsable date string contributes no date bound, and
a size string whose digit-prefix scan yields no positive value contributes
no size bound; in either case no error is raised (the construction is
total) and the remaining filters are still applied.  However, a size
string with a parseable integer prefix such as `"12abc"` contributes that
prefix as a size bound (see the counterexample). -/
theorem c9_unparsable_filters_dropped (f : SearchFlags)
    (hL : parseSize f.largerThan ≤ 0) (hS : parseSize f.smallerThan ≤ 0)
    (hsince : parseDate f.since = none) (hbefore : parseDate f.before = none)
    (hfrom : f.fromOpt ≠ "") (hnor : f.useOr = false) (hneg : f.negate = false) :
    (buildSearchCriteria (searchOptsOfFlags f)).larger = 0 ∧
    (buildSearchCriteria (searchOptsOfFlags f)).smaller = 0 ∧
    (buildSearchCriteria (searchOptsOfFlags f)).since = none ∧
    (buildSearchCriteria (searchOptsOfFlags f)).before = none ∧
    ("From", f.fromOpt) ∈ (buildSearchCriteria (searchOptsOfFlags f)).header := by
  have hbuild : buildSearchCriteria (searchOptsOfFlags f) =
      SearchCriteria.mk
        ((if f.query ≠ "" then [f.query] else [])
          ++ (if f.body ≠ "" then [f.body] else []))
        ((if f.fromOpt ≠ "" then [("From", f.fromOpt)] else [])
          ++ (if f.toOpt ≠ "" then [("To", f.toOpt)] else [])
          ++ (if f.subject ≠ "" then [("Subject", f.subject)] else [])
          ++ (if f.hasAttachments then [("Content-Type", "multipart/mixed")] else []))
        (if f.since ≠ "" then parseDate f.since else none)
        (if f.before ≠ "" then parseDate f.before else none)
        (if parseSize f.largerThan > 0 then parseSize f.largerThan else 0)
        (if parseSize f.smallerThan > 0 then parseSize f.smallerThan else 0)
        [] [] := by
    simp only [buildSearchCriteria, searchOptsOfFlags, hnor, hneg,
      Bool.false_eq_true, if_false]
  rw [hbuild]
  refine ⟨?_, ?_, ?_, ?_, ?_⟩
  · simp only [SearchCriteria.larger]
    rw [if_neg (by omega)]
  · simp only [SearchCriteria.smaller]
    rw [if_neg (by omega)]
  · simp only [SearchCriteria.since]
    split <;> simp [hsince]
  · simp only [SearchCriteria.before]
    split <;> simp [hbefore]
  · simp only [SearchCriteria.header]
    rw [if_pos hfrom]
    simp

theorem c9_witness :
    parseSize "xyz" ≤ 0 ∧ parseSize "" ≤ 0 ∧
    parseDate "not-a-date" = none ∧ parseDate "2026-13-99" = none ∧
    ("a@x.com" : String) ≠ "" ∧
    ((buildSearchCriteria (searchOptsOfFlags
        { query := "", fromOpt := "a@x.com", toOpt := "", subject := "",
          body := "", since := "not-a-date", before := "2026-13-99",
          hasAttachments := false, largerThan := "xyz", smallerThan := "",
          useOr := false, negate := false })).larger = 0 ∧
      (buildSearchCriteria (searchOptsOfFlags
        { query := "", fromOpt := "a@x.com", toOpt := "", subject := "",
          body := "", since := "not-a-date", before := "2026-13-99",
          hasAttachments := false, largerThan := "xyz", smallerThan := "",
          useOr := false, negate := false })).since = none ∧
      ("From", ("a@x.com" : String)) ∈ (buildSearchCriteria (searchOptsOfFlags
        { query := "", fromOpt := "a@x.com", toOpt := "", subject := "",
          body := "", since := "not-a-date", before := "2026-13-99",
          hasAttachments := false, largerThan := "xyz", smallerThan := "",
          useOr := false, negate := false })).header) := by
  have h := c9_unparsable_filters_dropped
    { query := "", fromOpt := "a@x.com", toOpt := "", subject := "",
      body := "", since := "not-a-date", before := "2026-13-99",
      hasAttachments := false, largerThan := "xyz", smallerThan := "",
      useOr := false, negate := false }
    (by decide) (by decide) (by decide) (by decide) (by decide) rfl rfl
  exact ⟨by decide, by decide, by decide, by decide, by decide,
    h.1, h.2.2.1, h.2.2.2.2⟩

end PmCli

